import Mathlib

set_option maxRecDepth 16000

/-!
Shallow embedding of the NachOS MP4 persistent-storage layer:
`code/filesys/filehdr.h`, `code/filesys/directory.cc`,
`code/filesys/filesys.cc`.

Conventions of the embedding:
* machine `int` sizes and sector numbers are `Nat`; the C sentinel `-1`
  (name not found / no free sector) is modelled as `Option.none`;
* the free-sector bitmap is the `Finset Nat` of used sector numbers;
* a sector holding a file header is modelled through a `Store`
  (`Nat → Option FileHeader`): `FetchFrom s` reads the store at `s`,
  `WriteBack s` updates it;
* a directory file's contents (fetched and written back as a whole
  table through `OpenFile`) are modelled through a table store
  (`Nat → Option DirTable`) keyed by the directory's header sector.

The implementation of `FileHeader::AllocateMultiLevel`,
`FileHeader::DeallocateMultiLevel` (filehdr.cc) and of the persistent
bitmap (pbitmap.cc), as well as the headers `disk.h` and `directory.h`,
are not part of the source tree here; those pieces are modelled from the
specification and are marked `Modelled from the spec:` below.
-/

/-- Modelled from the spec: `SectorSize` from the external `disk.h`
(not in the source tree); the spec fixes it at 128 bytes. -/
def SectorSize : Nat := 128

/-- `NumDirect = (SectorSize - 3 * sizeof(int)) / sizeof(int)` from
`filehdr.h` line 20 (with `sizeof(int) = 4`, so `NumDirect = 29`). -/
def NumDirect : Nat := (SectorSize - 3 * 4) / 4

/-- `OneLevelMaxFileSize = NumDirect * SectorSize` from `filehdr.h`. -/
def OneLevelMaxFileSize : Nat := NumDirect * SectorSize

/-- Modelled from the spec: `NumSectors` from the external `disk.h`
(1024 sectors on the simulated disk). -/
def NumSectors : Nat := 1024

/-- `FreeMapSector` from `filesys.cc` line 59. -/
def FreeMapSector : Nat := 0

/-- `DirectorySector` from `filesys.cc` line 60. -/
def DirectorySector : Nat := 1

/-- Modelled from the spec: `FileNameMaxLen` from the external
`directory.h` (bounded file-name length; 9 in stock NachOS). -/
def FileNameMaxLen : Nat := 9

/-- Modelled from the spec: `NumDirEntries` from the external
`directory.h` (fixed directory-table capacity). -/
def NumDirEntries : Nat := 64

/-- Modelled from the spec: `DirectoryFileSize = NumDirEntries *
sizeof(DirectoryEntry)` from the external `directory.h`; one on-disk
entry (two flags, a sector number, a null-padded name field) occupies
20 bytes. -/
def DirectoryFileSize : Nat := NumDirEntries * 20

/-- Ceiling division, `divRoundUp` of the NachOS sources. -/
def ceilDiv (a b : Nat) : Nat := (a + b - 1) / b

/-- Modelled from the spec: level selection of
`FileHeader::AllocateMultiLevel` (filehdr.cc is not in the source
tree).  The spec: the minimal level for a requested size is the
smallest `k ≥ 1` with `NumDirect ^ k * SectorSize ≥ byteLength`.
Structured as fuel-based recursion: one level is added while the byte
count exceeds the one-level capacity. -/
def levelForAux : Nat → Nat → Nat
  | 0, _ => 1
  | fuel + 1, bytes =>
    if bytes ≤ OneLevelMaxFileSize then 1
    else 1 + levelForAux fuel (ceilDiv bytes NumDirect)

/-- Modelled from the spec: the extent-tree level chosen for a
requested byte length (fuel `bytes` always suffices). -/
def levelFor (byteLength : Nat) : Nat := levelForAux byteLength byteLength

/-- The disk part of `class FileHeader` (filehdr.h lines 98-102):
`numBytes`, `numSectors`, `level`, `dataSectors[NumDirect]`. -/
structure FileHeader where
  numBytes : Nat
  numSectors : Nat
  level : Nat
  dataSectors : List Nat
deriving DecidableEq, Repr

/-- The all-zero header a fetch of an unwritten sector yields. -/
def defaultHdr : FileHeader := ⟨0, 0, 0, []⟩

/-- The on-disk header store: what `FileHeader::FetchFrom s` returns. -/
abbrev Store := Nat → Option FileHeader

/-- Point update of a sector-indexed store (a `WriteBack` to sector `k`). -/
def upd {α : Type} (f : Nat → Option α) (k : Nat) (v : α) : Nat → Option α :=
  fun n => if n = k then some v else f n

/-- Modelled from the spec: `Bitmap::FindAndSet` (bitmap.cc is not in
the source tree) — scan for a free sector, mark it used, return it;
`none` when exhausted.  The bitmap is the `Finset` of used sectors;
the caller inserts the returned sector. -/
def findAndSet (u : Finset Nat) : Option Nat :=
  (List.range NumSectors).find? (fun s => decide (s ∉ u))

/-- Number of free sectors in a bitmap. -/
def freeCount (u : Finset Nat) : Nat :=
  ((Finset.range NumSectors).filter (fun s => s ∉ u)).card

/-- Modelled from the spec: allocation of `n` data sectors at level 1
of `FileHeader::AllocateMultiLevel` (filehdr.cc is not in the source
tree): claim `n` sectors one by one with `FindAndSet`; on exhaustion
release every sector tentatively claimed in this call (the `.error`
value is the restored bitmap). -/
def allocN : Nat → Finset Nat → Except (Finset Nat) (List Nat × Finset Nat)
  | 0, u => .ok ([], u)
  | n + 1, u =>
    match findAndSet u with
    | none => .error u
    | some s =>
      match allocN n (insert s u) with
      | .error u1 => .error (u1.erase s)
      | .ok (l, u1) => .ok (s :: l, u1)

/-- Modelled from the spec: the byte counts handed to the children of
an internal extent node of capacity `cap` each: all full children are
saturated first, the rightmost child receives the partial remainder. -/
def childSizes (bytes cap : Nat) : List Nat :=
  match ceilDiv bytes cap with
  | 0 => []
  | c + 1 => List.replicate c cap ++ [bytes - c * cap]

/-- Modelled from the spec: the child loop of an internal node of
`FileHeader::AllocateMultiLevel` (filehdr.cc is not in the source
tree).  For each child byte count: claim one sector for the child's
own extent record, recursively allocate the child (`rec1`, the
allocator one level shallower), write the child header back to its
record sector.  Returns (record sectors, every sector claimed in this
call in claim order, bitmap, header store).  On failure every sector
claimed in this call is released before returning (the `.error` value
is the restored bitmap). -/
def allocChildren
    (rec1 : Nat → Finset Nat → Store →
      Except (Finset Nat) (FileHeader × List Nat × Finset Nat × Store)) :
    List Nat → Finset Nat → Store →
      Except (Finset Nat) (List Nat × List Nat × Finset Nat × Store)
  | [], u, hs => .ok ([], [], u, hs)
  | b :: bs, u, hs =>
    match findAndSet u with
    | none => .error u
    | some s =>
      match rec1 b (insert s u) hs with
      | .error u1 => .error (u1.erase s)
      | .ok (chd, cC, u1, hs1) =>
        match allocChildren rec1 bs u1 (upd hs1 s chd) with
        | .error u2 => .error ((cC.foldl Finset.erase u2).erase s)
        | .ok (rs, c2, u3, hs3) => .ok (s :: rs, s :: (cC ++ c2), u3, hs3)

/-- Modelled from the spec: the recursive allocator of
`FileHeader::AllocateMultiLevel` at a given tree level (filehdr.cc is
not in the source tree).  Level 1 claims `ceil(bytes / SectorSize)`
data sectors; level `k ≥ 2` claims, per child, one record sector plus
the child's own tree, saturating early children before the rightmost
partial child.  The produced header records the byte length, the total
number of sectors claimed by this call (index and data), the level and
the sector-number slots. -/
def allocLevel : Nat → Nat → Finset Nat → Store →
    Except (Finset Nat) (FileHeader × List Nat × Finset Nat × Store)
  | 0, _, u, _ => .error u
  | 1, bytes, u, hs =>
    match allocN (ceilDiv bytes SectorSize) u with
    | .error u1 => .error u1
    | .ok (secs, u1) => .ok (⟨bytes, secs.length, 1, secs⟩, secs, u1, hs)
  | k + 2, bytes, u, hs =>
    match allocChildren (allocLevel (k + 1))
        (childSizes bytes (NumDirect ^ (k + 1) * SectorSize)) u hs with
    | .error u1 => .error u1
    | .ok (rs, cAll, u1, hs1) => .ok (⟨bytes, cAll.length, k + 2, rs⟩, cAll, u1, hs1)

/-- Modelled from the spec: `FileHeader::AllocateMultiLevel` (declared
filehdr.h line 53, implementation not in the source tree): choose the
minimal level for the requested byte length and allocate the tree.
`.ok` carries the header, the claimed sectors, the bitmap and the
header store; `.error` carries the bitmap with every tentatively
claimed sector released. -/
def allocateMultiLevel (byteLength : Nat) (u : Finset Nat) (hs : Store) :
    Except (Finset Nat) (FileHeader × List Nat × Finset Nat × Store) :=
  allocLevel (levelFor byteLength) byteLength u hs

/-- Modelled from the spec: total number of sectors (index and data) a
request of the given size needs at the given tree level. -/
def neededSectors : Nat → Nat → Nat
  | 0, _ => 0
  | 1, bytes => ceilDiv bytes SectorSize
  | k + 2, bytes =>
    ((childSizes bytes (NumDirect ^ (k + 1) * SectorSize)).map
      (fun b => 1 + neededSectors (k + 1) b)).sum

/-- Modelled from the spec: the sectors `FileHeader::DeallocateMultiLevel`
clears, in clearing order (filehdr.cc is not in the source tree).  At
level 1 the data sectors are cleared; at level `k ≥ 2`, for every
child: fetch the child extent from its record sector, recursively
clear its tree, then clear the child's record sector.  The fuel is the
header's level. -/
def deallocSectors : Nat → FileHeader → Store → List Nat
  | 0, _, _ => []
  | fuel + 1, hdr, hs =>
    if hdr.level ≤ 1 then hdr.dataSectors
    else hdr.dataSectors.foldr
      (fun s acc => (deallocSectors fuel ((hs s).getD defaultHdr) hs ++ [s]) ++ acc) []

/-- Modelled from the spec: `FileHeader::DeallocateMultiLevel`
(declared filehdr.h line 65, implementation not in the source tree):
clear every sector of the tree in the bitmap.  The caller clears the
header's own sector afterwards. -/
def deallocateMultiLevel (hdr : FileHeader) (u : Finset Nat) (hs : Store) : Finset Nat :=
  (deallocSectors hdr.level hdr hs).foldl Finset.erase u

/-- A file name; C strings without embedded null bytes become `List Char`. -/
abbrev FName := List Char

/-- Modelled from the spec: `DirectoryEntry` from the external
`directory.h` — (inUse, isDirectory, sector, bounded name), the fields
directory.cc uses. -/
structure DirectoryEntry where
  inUse : Bool
  isDirectory : Bool
  sector : Nat
  name : FName
deriving DecidableEq, Repr

/-- The zeroed entry of a freshly constructed directory
(directory.cc lines 99-110: `memset` plus both flags `FALSE`). -/
def emptyEntry : DirectoryEntry := ⟨false, false, 0, []⟩

/-- An in-memory directory table (always of length `NumDirEntries`
when fetched through `Directory(NumDirEntries)`). -/
abbrev DirTable := List DirectoryEntry

/-- The freshly constructed, completely empty directory table. -/
def emptyTable : DirTable := List.replicate NumDirEntries emptyEntry

/-- The on-disk table store: what `Directory::FetchFrom (OpenFile s)`
returns for the directory file whose header sits at sector `s`. -/
abbrev Tables := Nat → Option DirTable

/-- `strncmp(a, b, FileNameMaxLen) == 0` for null-free C strings:
the first `FileNameMaxLen` characters agree (directory.cc line 153). -/
def nameMatch (a b : FName) : Bool :=
  a.take FileNameMaxLen == b.take FileNameMaxLen

/-- Index of the first list element satisfying `p` (the scan of
`Directory::FindIndex` and of the free-slot loop of `Directory::Add`). -/
def findFirst {α : Type} (p : α → Bool) : List α → Option Nat
  | [] => none
  | a :: as => if p a then some 0 else (findFirst p as).map (· + 1)

/-- `Directory::FindIndex` (directory.cc lines 151-156): first table
slot that is in use and whose name matches on the first
`FileNameMaxLen` characters; `none` for the C `-1`. -/
def findIndex (t : DirTable) (nm : FName) : Option Nat :=
  findFirst (fun e => e.inUse && nameMatch e.name nm) t

/-- `Directory::Add` (directory.cc lines 209-223): reject a duplicate
name; otherwise occupy the first slot not in use, storing the
`strncpy`-truncated name; `none` when the name exists or no slot is
free. -/
def dirAdd (t : DirTable) (nm : FName) (newSector : Nat) (isDir : Bool) :
    Option DirTable :=
  match findIndex t nm with
  | some _ => none
  | none =>
    (findFirst (fun e => !e.inUse) t).map
      (fun i => t.set i ⟨true, isDir, newSector, nm.take FileNameMaxLen⟩)

/-- `Directory::Remove` (directory.cc lines 233-240): mark the matching
entry not in use; `none` when the name is not present. -/
def dirRemove (t : DirTable) (nm : FName) : Option DirTable :=
  (findIndex t nm).map (fun i => t.set i { t.getD i emptyEntry with inUse := false })

/-- The component loop of the `AbsolutePath` constructor
(directory.cc lines 29-51): `depth` times, require a leading slash
(`ASSERT`, modelled as `none`), then copy characters up to the next
slash or the end of the string. -/
def parseComponents : Nat → List Char → Option (List FName)
  | 0, _ => some []
  | d + 1, text =>
    match text with
    | '/' :: rest =>
      (parseComponents d (rest.dropWhile (fun c => c != '/'))).map
        ((rest.takeWhile (fun c => c != '/')) :: ·)
    | _ => none

/-- `AbsolutePath::AbsolutePath` (directory.cc lines 29-51): `depth` is
the number of slash characters; the names are the pieces after each
slash. -/
def parseAbsolutePath (text : List Char) : Option (List FName) :=
  parseComponents (text.count '/') text

/-- An in-memory `AbsolutePath`: the stored path text plus the parsed
name components. -/
structure APath where
  text : List Char
  comps : List FName

/-- `AbsolutePath::GetLastName` (directory.cc lines 81-83). -/
def lastName (comps : List FName) : FName := comps.getLastD []

/-- `Directory::FindByAbsolutePath` (directory.cc lines 175-196):
look the current component up; if it is the last component return its
sector and kind; otherwise fetch the entry's sector as a directory
table and recurse — the entry's `isDirectory` flag is not consulted
before recursing. -/
def findByAbsolutePath (tb : Tables) : DirTable → List FName → Option (Nat × Bool)
  | _, [] => none
  | t, nm :: rest =>
    match findIndex t nm with
    | none => none
    | some i =>
      match rest with
      | [] => some ((t.getD i emptyEntry).sector, (t.getD i emptyEntry).isDirectory)
      | _ :: _ =>
        findByAbsolutePath tb ((tb ((t.getD i emptyEntry).sector)).getD emptyTable) rest

/-- `AbsolutePath::GetSector` (directory.cc lines 60-64): the path
consisting of the single slash resolves directly to the root sector;
anything else resolves through `FindByAbsolutePath`. -/
def getSector (tb : Tables) (rootDir : DirTable) (rootSector : Nat) (p : APath) :
    Option Nat :=
  if p.text = ['/'] then some rootSector
  else (findByAbsolutePath tb rootDir p.comps).map Prod.fst

/-- `AbsolutePath::GetUpperLevelSector` (directory.cc lines 66-79):
for a depth-1 path the parent is the root sector; otherwise the text is
cut at its last slash, re-parsed and resolved from the root table. -/
def getUpperLevelSector (tb : Tables) (rootDir : DirTable) (rootSector : Nat)
    (p : APath) : Option Nat :=
  if p.comps.length = 1 then some rootSector
  else
    match findFirst (fun c => c == '/') p.text.reverse with
    | none => none
    | some j =>
      match parseAbsolutePath (p.text.take (p.text.length - 1 - j)) with
      | none => none
      | some comps2 => (findByAbsolutePath tb rootDir comps2).map Prod.fst

/-- The persistent state the orchestrator reads and writes: the
on-disk bitmap, the header of each sector, and the table contents of
each directory file (keyed by its header sector). -/
structure DiskState where
  used : Finset Nat
  headers : Store
  tables : Tables

/-- Outcome of one orchestrator call: `aborted` models a failed
`ASSERT` (fatal to the process) or undefined behaviour on a `-1`
sector; `done` carries the returned value and the resulting disk. -/
inductive OpResult (α : Type) where
  | aborted : OpResult α
  | done : α → OpResult α
deriving DecidableEq

/-- The entry loop of `Directory::RemoveAll` parameterized by the
recursion one nesting level deeper (`recSub`): for every in-use entry,
recurse first if it is a directory, then deallocate the entry's extent
and clear its header sector. -/
def removeAllGo (recSub : DirTable → Finset Nat → Finset Nat)
    (tb : Tables) (hd : Store) : List DirectoryEntry → Finset Nat → Finset Nat
  | [], u => u
  | e :: es, u =>
    removeAllGo recSub tb hd es
      (if e.inUse then
        (deallocateMultiLevel ((hd e.sector).getD defaultHdr)
          (if e.isDirectory then recSub ((tb e.sector).getD emptyTable) u else u)
          hd).erase e.sector
      else u)

/-- `Directory::RemoveAll` (directory.cc lines 242-264), with explicit
fuel bounding the directory-nesting depth (the C recursion is bounded
by the acyclicity of a well-formed disk). -/
def removeAll : Nat → Tables → Store → DirTable → Finset Nat → Finset Nat
  | 0, _, _, _, u => u
  | fuel + 1, tb, hd, t, u => removeAllGo (removeAll fuel tb hd) tb hd t u

/-- `FileSystem::Open` (filesys.cc lines 279-295): parse, resolve, no
mutation; `none` models the `NULL` return. -/
def modelOpen (st : DiskState) (text : List Char) : OpResult (Option Nat) :=
  match parseAbsolutePath text with
  | none => .aborted
  | some comps =>
    .done (getSector st.tables ((st.tables DirectorySector).getD emptyTable)
      DirectorySector ⟨text, comps⟩)

/-- `FileSystem::Create` (filesys.cc lines 181-229).  The parent
directory is resolved first (`ASSERT` on failure); the existence check
`GetSector` is then run with the parent's table in the `directory`
variable; on any of the four failure conditions nothing is written
back; on success the header, the parent table and the bitmap are
written, in that order. -/
def modelCreate (st : DiskState) (text : List Char) (initialSize : Nat) :
    OpResult (Bool × DiskState) :=
  let rootDir := (st.tables DirectorySector).getD emptyTable
  match parseAbsolutePath text with
  | none => .aborted
  | some comps =>
    match getUpperLevelSector st.tables rootDir DirectorySector ⟨text, comps⟩ with
    | none => .aborted
    | some dirSector =>
      let directory := (st.tables dirSector).getD emptyTable
      match getSector st.tables directory DirectorySector ⟨text, comps⟩ with
      | some _ => .done (false, st)
      | none =>
        match findAndSet st.used with
        | none => .done (false, st)
        | some sector =>
          match dirAdd directory (lastName comps) sector false with
          | none => .done (false, st)
          | some directory2 =>
            match allocateMultiLevel initialSize (insert sector st.used) st.headers with
            | .error _ => .done (false, st)
            | .ok (hdr, _, used2, headers2) =>
              .done (true,
                ⟨used2, upd headers2 sector hdr, upd st.tables dirSector directory2⟩)

/-- `FileSystem::CreateDirectory` (filesys.cc lines 231-267).  The
existing-path check, the free-sector lookup and the extent allocation
are all `ASSERT`s (fatal, modelled `aborted`); the freshly allocated
directory header and empty table are written, the parent is resolved
and the entry added (the `Add` return value is discarded), then parent
table and bitmap are written back. -/
def modelCreateDirectory (st : DiskState) (text : List Char) : OpResult DiskState :=
  let rootDir := (st.tables DirectorySector).getD emptyTable
  match parseAbsolutePath text with
  | none => .aborted
  | some comps =>
    match getSector st.tables rootDir DirectorySector ⟨text, comps⟩ with
    | some _ => .aborted
    | none =>
      match findAndSet st.used with
      | none => .aborted
      | some newSector =>
        match allocateMultiLevel DirectoryFileSize (insert newSector st.used)
            st.headers with
        | .error _ => .aborted
        | .ok (dirHdr, _, used2, headers2) =>
          let tables2 := upd st.tables newSector emptyTable
          match getUpperLevelSector tables2 rootDir DirectorySector ⟨text, comps⟩ with
          | none => .aborted
          | some dirSector =>
            let parent := (tables2 dirSector).getD emptyTable
            let parent2 := (dirAdd parent (lastName comps) newSector true).getD parent
            .done ⟨used2, upd headers2 newSector dirHdr, upd tables2 dirSector parent2⟩

/-- `FileSystem::Remove` (filesys.cc lines 311-357): resolve the target
and its parent, deallocate the target's extent, clear its header
sector, drop its entry from the parent (return value discarded), write
back bitmap and parent table. -/
def modelRemove (st : DiskState) (text : List Char) : OpResult (Bool × DiskState) :=
  let rootDir := (st.tables DirectorySector).getD emptyTable
  match parseAbsolutePath text with
  | none => .aborted
  | some comps =>
    let sector? := getSector st.tables rootDir DirectorySector ⟨text, comps⟩
    match getUpperLevelSector st.tables rootDir DirectorySector ⟨text, comps⟩ with
    | none => .aborted
    | some dirSector =>
      let directory := (st.tables dirSector).getD emptyTable
      match sector? with
      | none => .done (false, st)
      | some sector =>
        let hdr := (st.headers sector).getD defaultHdr
        let used1 := (deallocateMultiLevel hdr st.used st.headers).erase sector
        let directory2 := (dirRemove directory (lastName comps)).getD directory
        .done (true, ⟨used1, st.headers, upd st.tables dirSector directory2⟩)

/-- `FileSystem::RemoveRecursively` (filesys.cc lines 359-400): resolve
the target (`ASSERT` when not found, fatal); a plain file is handed to
`Remove`; a directory has every descendant removed (`RemoveAll`), its
own extent deallocated and header sector cleared, and its entry dropped
from the parent table, which is then written back with the bitmap.
The C function falls off its end without a return value; the directory
branch is modelled as returning `true`. -/
def modelRemoveRecursively (st : DiskState) (text : List Char) :
    OpResult (Bool × DiskState) :=
  let rootDir := (st.tables DirectorySector).getD emptyTable
  match parseAbsolutePath text with
  | none => .aborted
  | some comps =>
    match findByAbsolutePath st.tables rootDir comps with
    | none => .aborted
    | some (sector, isDirectory) =>
      if isDirectory then
        let dTable := (st.tables sector).getD emptyTable
        let used1 := removeAll NumSectors st.tables st.headers dTable st.used
        let hdr := (st.headers sector).getD defaultHdr
        let used2 := (deallocateMultiLevel hdr used1 st.headers).erase sector
        match getUpperLevelSector st.tables rootDir DirectorySector ⟨text, comps⟩ with
        | none => .aborted
        | some ups =>
          let parent := (st.tables ups).getD emptyTable
          let parent2 := (dirRemove parent (lastName comps)).getD parent
          .done (true, ⟨used2, st.headers, upd st.tables ups parent2⟩)
      else modelRemove st text

/-- Concrete fixture: a freshly formatted bitmap with the two
well-known sectors used. -/
def baseUsed : Finset Nat := insert 0 (insert 1 ∅)

/-- Concrete fixture: a disk with no header written anywhere. -/
def emptyStore : Store := fun _ => none

/-- Concrete fixture: only the root directory file exists and its
table is empty. -/
def rootTablesOnly : Tables := fun s => if s = 1 then some emptyTable else none

/-- Concrete fixture: a freshly formatted disk state. -/
def baseState : DiskState := ⟨baseUsed, emptyStore, rootTablesOnly⟩

/-- Concrete fixture: a root table whose slot 0 holds the plain file
`a` with header sector 5. -/
def rootWithFileA : DirTable := emptyTable.set 0 ⟨true, false, 5, ['a']⟩

/-- Concrete fixture: a table holding the entry `b` at sector 7 — the
contents a table-read of a plain file's data can produce. -/
def tableWithB : DirTable := emptyTable.set 0 ⟨true, false, 7, ['b']⟩

/-- Concrete fixture: table-reads of the disk on which sector 5 (a
plain file's header) yields `tableWithB` when fetched as a directory. -/
def fileContentTables : Tables := fun s => if s = 5 then some tableWithB else none

/-- Concrete fixture: a root table whose slot 0 holds the
subdirectory `d` with header sector 5. -/
def rootWithDirD : DirTable := emptyTable.set 0 ⟨true, true, 5, ['d']⟩

/-- Concrete fixture: a formatted disk whose root already contains the
directory `d`. -/
def stateWithDirD : DiskState :=
  ⟨baseUsed, emptyStore, fun s => if s = 1 then some rootWithDirD else none⟩

/-- Concrete fixture: a disk whose bitmap has every sector used (the
root table exists and is empty). -/
def fullState : DiskState := ⟨Finset.range NumSectors, emptyStore, rootTablesOnly⟩

/-- Concrete fixture: a disk whose bitmap has exactly one free sector,
number 5 (the root table exists and is empty). -/
def oneFreeState : DiskState :=
  ⟨(Finset.range NumSectors).erase 5, emptyStore, rootTablesOnly⟩

/-- Concrete fixture: a ten-character name whose first nine characters
agree with `nameAY`. -/
def nameAX : FName := ['a', 'b', 'c', 'd', 'e', 'f', 'g', 'h', 'i', 'X']

/-- Concrete fixture: a ten-character name whose first nine characters
agree with `nameAX`. -/
def nameAY : FName := ['a', 'b', 'c', 'd', 'e', 'f', 'g', 'h', 'i', 'Y']

/-- Packaged soundness facts of one `allocLevel` call: the claimed
sectors are distinct, fresh, in range; the bitmap gains exactly them;
the store changes only at claimed sectors; the header records the
level and size; the claim count is the level's sector need; and
deallocation through any store agreeing on the claimed sectors clears
a permutation of exactly the claimed sectors. -/
def AllocInv (lvl bytes : Nat) (u : Finset Nat) (hs : Store) (hdr : FileHeader)
    (C : List Nat) (u2 : Finset Nat) (hs2 : Store) : Prop :=
  C.Nodup ∧ (∀ x ∈ C, x ∉ u ∧ x < NumSectors) ∧ u2 = u ∪ C.toFinset ∧
  (∀ x, x ∉ C → hs2 x = hs x) ∧ hdr.level = lvl ∧ hdr.numBytes = bytes ∧
  C.length = neededSectors lvl bytes ∧
  (∀ hs3 : Store, (∀ x ∈ C, hs3 x = hs2 x) → (deallocSectors lvl hdr hs3).Perm C)

/-- Packaged soundness facts of one `allocChildren` call (`lvl` is the
level of the children, `rs` the record sectors handed back). -/
def ChildInv (lvl : Nat) (bs : List Nat) (u : Finset Nat) (hs : Store)
    (rs C : List Nat) (u2 : Finset Nat) (hs2 : Store) : Prop :=
  C.Nodup ∧ (∀ x ∈ C, x ∉ u ∧ x < NumSectors) ∧ u2 = u ∪ C.toFinset ∧
  (∀ x, x ∉ C → hs2 x = hs x) ∧
  C.length = (bs.map (fun b => 1 + neededSectors lvl b)).sum ∧
  (∀ hs3 : Store, (∀ x ∈ C, hs3 x = hs2 x) →
    (rs.foldr (fun s acc =>
      (deallocSectors lvl ((hs3 s).getD defaultHdr) hs3 ++ [s]) ++ acc) []).Perm C)

theorem ceilDiv_le_iff {b : Nat} (hb : 0 < b) (a c : Nat) :
    ceilDiv a b ≤ c ↔ a ≤ b * c := by
  unfold ceilDiv
  rw [Nat.div_le_iff_le_mul_add_pred hb]
  have h1 : a + b - 1 = a + (b - 1) := by omega
  rw [h1, Nat.add_le_add_iff_right]

theorem levelForAux_ge_one (fuel bytes : Nat) : 1 ≤ levelForAux fuel bytes := by
  cases fuel with
  | zero => simp [levelForAux]
  | succ fuel => unfold levelForAux; split <;> omega

theorem levelForAux_spec : ∀ fuel bytes, bytes ≤ fuel + OneLevelMaxFileSize →
    bytes ≤ NumDirect ^ levelForAux fuel bytes * SectorSize ∧
    (∀ k, 1 ≤ k → bytes ≤ NumDirect ^ k * SectorSize → levelForAux fuel bytes ≤ k) := by
  intro fuel
  induction fuel with
  | zero =>
    intro bytes hb
    constructor
    · show bytes ≤ NumDirect ^ 1 * SectorSize
      simp only [OneLevelMaxFileSize, NumDirect, SectorSize] at *
      omega
    · intro k hk _; exact levelForAux_ge_one 0 bytes |>.trans hk
  | succ fuel ih =>
    intro bytes hb
    by_cases hle : bytes ≤ OneLevelMaxFileSize
    · simp only [levelForAux, hle, if_true]
      refine ⟨?_, fun k hk _ => hk⟩
      show bytes ≤ NumDirect ^ 1 * SectorSize
      simp only [OneLevelMaxFileSize, NumDirect, SectorSize] at *
      omega
    · simp only [levelForAux, hle, if_false]
      have hdpos : 0 < NumDirect := by norm_num [NumDirect, SectorSize]
      have hinv : ceilDiv bytes NumDirect ≤ fuel + OneLevelMaxFileSize := by
        simp only [ceilDiv, NumDirect, SectorSize, OneLevelMaxFileSize] at *
        omega
      obtain ⟨ih1, ih2⟩ := ih (ceilDiv bytes NumDirect) hinv
      constructor
      · have := (ceilDiv_le_iff hdpos bytes
          (NumDirect ^ levelForAux fuel (ceilDiv bytes NumDirect) * SectorSize)).mp ih1
        calc bytes ≤ NumDirect * (NumDirect ^ levelForAux fuel (ceilDiv bytes NumDirect)
              * SectorSize) := this
          _ = NumDirect ^ (1 + levelForAux fuel (ceilDiv bytes NumDirect)) * SectorSize := by
              rw [pow_add, pow_one]; ring
      · intro k hk1 hk
        obtain ⟨k', rfl⟩ : ∃ k', k = k' + 1 := ⟨k - 1, by omega⟩
        cases Nat.eq_zero_or_pos k' with
        | inl h0 =>
          subst h0
          exfalso
          apply hle
          calc bytes ≤ NumDirect ^ 1 * SectorSize := hk
            _ = OneLevelMaxFileSize := by norm_num [NumDirect, SectorSize, OneLevelMaxFileSize]
        | inr hpos =>
          have hk' : bytes ≤ NumDirect * (NumDirect ^ k' * SectorSize) := by
            calc bytes ≤ NumDirect ^ (k' + 1) * SectorSize := hk
              _ = NumDirect * (NumDirect ^ k' * SectorSize) := by
                  rw [pow_succ]; ring
          have := ih2 k' hpos ((ceilDiv_le_iff hdpos bytes (NumDirect ^ k' * SectorSize)).mpr hk')
          omega

theorem levelFor_min (bytes : Nat) :
    bytes ≤ NumDirect ^ levelFor bytes * SectorSize ∧
    (∀ k, 1 ≤ k → bytes ≤ NumDirect ^ k * SectorSize → levelFor bytes ≤ k) :=
  levelForAux_spec bytes bytes (Nat.le_add_right bytes OneLevelMaxFileSize)

theorem findAndSet_mem {u : Finset Nat} {s : Nat} (h : findAndSet u = some s) :
    s ∉ u ∧ s < NumSectors := by
  unfold findAndSet at h
  have h1 := List.find?_some h
  have h2 := List.mem_of_find?_eq_some h
  rw [List.mem_range] at h2
  exact ⟨by simpa using h1, h2⟩

theorem findAndSet_isSome_of_free {u : Finset Nat} (h : 0 < freeCount u) :
    ∃ s, findAndSet u = some s := by
  cases hfs : findAndSet u with
  | some s => exact ⟨s, rfl⟩
  | none =>
    exfalso
    unfold findAndSet at hfs
    rw [List.find?_eq_none] at hfs
    unfold freeCount at h
    obtain ⟨x, hx⟩ := Finset.card_pos.mp h
    rw [Finset.mem_filter, Finset.mem_range] at hx
    have := hfs x (List.mem_range.mpr hx.1)
    simp [hx.2] at this

theorem freeCount_insert {u : Finset Nat} {s : Nat} (h1 : s ∉ u) (h2 : s < NumSectors) :
    freeCount (insert s u) + 1 = freeCount u := by
  unfold freeCount
  have hset : (Finset.range NumSectors).filter (fun x => x ∉ insert s u)
      = ((Finset.range NumSectors).filter (fun x => x ∉ u)).erase s := by
    ext x
    simp only [Finset.mem_filter, Finset.mem_erase, Finset.mem_insert, Finset.mem_range,
      not_or]
    tauto
  have hmem : s ∈ (Finset.range NumSectors).filter (fun x => x ∉ u) := by
    simp [Finset.mem_filter, Finset.mem_range, h1, h2]
  rw [hset, Finset.card_erase_of_mem hmem]
  have : 0 < ((Finset.range NumSectors).filter (fun x => x ∉ u)).card :=
    Finset.card_pos.mpr ⟨s, hmem⟩
  omega

theorem allocN_err : ∀ n u u1, allocN n u = Except.error u1 → u1 = u := by
  intro n
  induction n with
  | zero => intro u u1 h; simp [allocN] at h
  | succ n ih =>
    intro u u1 h
    unfold allocN at h
    split at h
    · injection h with h; exact h.symm
    · rename_i s hfs
      split at h
      · rename_i u' hin
        injection h with h
        obtain ⟨hs1, _⟩ := findAndSet_mem hfs
        rw [← h, ih (insert s u) u' hin, Finset.erase_insert hs1]
      · exact absurd h (by simp)

theorem allocN_ok : ∀ n u l u1, allocN n u = Except.ok (l, u1) →
    l.Nodup ∧ (∀ x ∈ l, x ∉ u ∧ x < NumSectors) ∧ u1 = u ∪ l.toFinset ∧
    l.length = n ∧ freeCount u = freeCount u1 + n := by
  intro n
  induction n with
  | zero =>
    intro u l u1 h
    simp only [allocN] at h
    injection h with h
    obtain ⟨h1, h2⟩ := Prod.mk.injEq .. ▸ h
    cases h; simp
  | succ n ih =>
    intro u l u1 h
    unfold allocN at h
    split at h
    · exact absurd h (by simp)
    · rename_i s hfs
      split at h
      · exact absurd h (by simp)
      · rename_i l' u' hin
        injection h with h
        obtain ⟨hs1, hs2⟩ := findAndSet_mem hfs
        obtain ⟨nd, hfresh, hu, hlen, hfc⟩ := ih (insert s u) l' u' hin
        have hsl' : s ∉ l' := fun hmem => (hfresh s hmem).1 (Finset.mem_insert_self s u)
        have hl : l = s :: l' := by
          have := congrArg Prod.fst h.symm; simpa using this
        have hu1 : u1 = u' := by
          have := congrArg Prod.snd h.symm; simpa using this
        subst hl hu1
        refine ⟨List.nodup_cons.mpr ⟨hsl', nd⟩, ?_, ?_, by simp [hlen], ?_⟩
        · intro x hx
          rcases List.mem_cons.mp hx with rfl | hx
          · exact ⟨hs1, hs2⟩
          · exact ⟨fun hxu => (hfresh x hx).1 (Finset.mem_insert_of_mem hxu),
              (hfresh x hx).2⟩
        · rw [hu, List.toFinset_cons]
          ext x
          simp only [Finset.mem_union, Finset.mem_insert, List.mem_toFinset]
          tauto
        · have := freeCount_insert hs1 hs2
          omega

theorem foldl_erase_union : ∀ (D : List Nat) (w : Finset Nat), D.Nodup →
    (∀ x ∈ D, x ∉ w) → List.foldl Finset.erase (w ∪ D.toFinset) D = w := by
  intro D
  induction D with
  | nil => intro w _ _; simp
  | cons d D ih =>
    intro w hnd hdj
    simp only [List.foldl_cons, List.toFinset_cons]
    have hd_not_D : d ∉ D := (List.nodup_cons.mp hnd).1
    have hdw : d ∉ w := hdj d (List.mem_cons_self d D)
    have hstep : (w ∪ insert d D.toFinset).erase d = w ∪ D.toFinset := by
      ext x
      simp only [Finset.mem_erase, Finset.mem_union, Finset.mem_insert, List.mem_toFinset]
      constructor
      · rintro ⟨hxd, hx | hx | hx⟩
        · exact Or.inl hx
        · exact absurd hx hxd
        · exact Or.inr hx
      · rintro (hx | hx)
        · exact ⟨fun he => hdw (he ▸ hx), Or.inl hx⟩
        · exact ⟨fun he => hd_not_D (he ▸ hx), Or.inr (Or.inr hx)⟩
    rw [hstep]
    exact ih w (List.nodup_cons.mp hnd).2
      (fun x hx => hdj x (List.mem_cons_of_mem d hx))

theorem upd_same {α : Type} (f : Nat → Option α) (k : Nat) (v : α) :
    upd f k v k = some v := by simp [upd]

theorem upd_ne {α : Type} (f : Nat → Option α) {k n : Nat} (v : α) (h : n ≠ k) :
    upd f k v n = f n := by simp [upd, h]

theorem deallocSectors_level_one (hdr : FileHeader) (hs : Store) (h : hdr.level = 1) :
    deallocSectors 1 hdr hs = hdr.dataSectors := by
  simp [deallocSectors, h]

theorem deallocSectors_level_succ (k : Nat) (hdr : FileHeader) (hs : Store)
    (h : hdr.level = k + 2) :
    deallocSectors (k + 2) hdr hs = hdr.dataSectors.foldr
      (fun s acc =>
        (deallocSectors (k + 1) ((hs s).getD defaultHdr) hs ++ [s]) ++ acc) [] := by
  show (if hdr.level ≤ 1 then hdr.dataSectors else _) = _
  rw [if_neg (by omega)]

theorem allocChildren_err (lvl : Nat)
    (rec1 : Nat → Finset Nat → Store →
      Except (Finset Nat) (FileHeader × List Nat × Finset Nat × Store))
    (hO : ∀ b u hs hdr C u2 hs2, rec1 b u hs = .ok (hdr, C, u2, hs2) →
      AllocInv lvl b u hs hdr C u2 hs2)
    (hE : ∀ b u hs u1, rec1 b u hs = .error u1 → u1 = u) :
    ∀ bs u hs u1, allocChildren rec1 bs u hs = .error u1 → u1 = u := by
  intro bs
  induction bs with
  | nil => intro u hs u1 h; simp [allocChildren] at h
  | cons b bs ih =>
    intro u hs u1 h
    unfold allocChildren at h
    split at h
    · injection h with h; exact h.symm
    · rename_i s hfs
      obtain ⟨hsu, _⟩ := findAndSet_mem hfs
      split at h
      · rename_i u' hrec
        injection h with h
        rw [← h, hE b (insert s u) hs u' hrec, Finset.erase_insert hsu]
      · rename_i chd cC u' hs1 hrec
        split at h
        · rename_i u2 hin
          injection h with h
          obtain ⟨ndC, freshC, huC, _, _, _, _, _⟩ := hO b (insert s u) hs chd cC u' hs1 hrec
          have hu2 : u2 = u' := ih u' (upd hs1 s chd) u2 hin
          rw [← h, hu2, huC, foldl_erase_union cC (insert s u) ndC
            (fun x hx => (freshC x hx).1), Finset.erase_insert hsu]
        · exact absurd h (by simp)

theorem allocChildren_ok (lvl : Nat)
    (rec1 : Nat → Finset Nat → Store →
      Except (Finset Nat) (FileHeader × List Nat × Finset Nat × Store))
    (hO : ∀ b u hs hdr C u2 hs2, rec1 b u hs = .ok (hdr, C, u2, hs2) →
      AllocInv lvl b u hs hdr C u2 hs2)
    (hE : ∀ b u hs u1, rec1 b u hs = .error u1 → u1 = u) :
    ∀ bs u hs rs C u2 hs2, allocChildren rec1 bs u hs = .ok (rs, C, u2, hs2) →
      ChildInv lvl bs u hs rs C u2 hs2 := by
  intro bs
  induction bs with
  | nil =>
    intro u hs rs C u2 hs2 h
    simp only [allocChildren] at h
    injection h with h
    obtain ⟨h1, h2, h3, h4⟩ : rs = [] ∧ C = [] ∧ u2 = u ∧ hs2 = hs := by
      refine ⟨?_, ?_, ?_, ?_⟩ <;> first
        | exact (congrArg (fun x => x.1) h).symm
        | exact (congrArg (fun x => x.2.1) h).symm
        | exact (congrArg (fun x => x.2.2.1) h).symm
        | exact (congrArg (fun x => x.2.2.2) h).symm
    subst h1 h2 h3 h4
    refine ⟨by simp, by simp, by simp, fun x _ => rfl, by simp, ?_⟩
    intro hs3 _
    simp [List.Perm.refl]
  | cons b bs ih =>
    intro u hs rs C u2 hs2 h
    unfold allocChildren at h
    split at h
    · exact absurd h (by simp)
    · rename_i s hfs
      obtain ⟨hsu, hsN⟩ := findAndSet_mem hfs
      split at h
      · exact absurd h (by simp)
      · rename_i chd cC u' hs1 hrec
        split at h
        · exact absurd h (by simp)
        · rename_i rs' c2 u3 hs3 hin
          injection h with h
          rw [Prod.mk.injEq, Prod.mk.injEq, Prod.mk.injEq] at h
          obtain ⟨h1, h2, h3, h4⟩ := h
          subst h1; subst h2; subst h3; subst h4
          obtain ⟨ndC, freshC, huC, hstC, hlvlC, hbytesC, hlenC, hdC⟩ :=
            hO b (insert s u) hs chd cC u' hs1 hrec
          obtain ⟨nd2, fresh2, hu2, hst2, hlen2, hd2⟩ := ih u' (upd hs1 s chd) rs' c2 _ _ hin
          have s_not_cC : s ∉ cC := fun hc => (freshC s hc).1 (Finset.mem_insert_self s u)
          have s_in_u' : s ∈ u' := huC ▸ Finset.mem_union_left _ (Finset.mem_insert_self s u)
          have s_not_c2 : s ∉ c2 := fun hc => (fresh2 s hc).1 s_in_u'
          have cC_disj_c2 : ∀ x ∈ cC, x ∉ c2 := fun x hx hc =>
            (fresh2 x hc).1 (huC ▸ Finset.mem_union_right _ (List.mem_toFinset.mpr hx))
          refine ⟨?_, ?_, ?_, ?_, ?_, ?_⟩
          · refine List.nodup_cons.mpr ⟨?_, List.Nodup.append ndC nd2 cC_disj_c2⟩
            intro hc
            rcases List.mem_append.mp hc with hc | hc
            · exact s_not_cC hc
            · exact s_not_c2 hc
          · intro x hx
            rcases List.mem_cons.mp hx with rfl | hx
            · exact ⟨hsu, hsN⟩
            · rcases List.mem_append.mp hx with hx | hx
              · exact ⟨fun hxu => (freshC x hx).1 (Finset.mem_insert_of_mem hxu),
                  (freshC x hx).2⟩
              · refine ⟨fun hxu => (fresh2 x hx).1 ?_, (fresh2 x hx).2⟩
                exact huC ▸ Finset.mem_union_left _ (Finset.mem_insert_of_mem hxu)
          · rw [hu2, huC]
            ext x
            simp only [Finset.mem_union, Finset.mem_insert, List.mem_toFinset,
              List.toFinset_cons, List.toFinset_append, List.mem_cons, List.mem_append]
            tauto
          · intro x hx
            have hx_cC : x ∉ cC := fun hc => hx (List.mem_cons_of_mem s
              (List.mem_append.mpr (Or.inl hc)))
            have hx_c2 : x ∉ c2 := fun hc => hx (List.mem_cons_of_mem s
              (List.mem_append.mpr (Or.inr hc)))
            have hx_s : x ≠ s := fun he => hx (he ▸ List.mem_cons_self s _)
            rw [hst2 x hx_c2, upd_ne hs1 chd hx_s, hstC x hx_cC]
          · simp only [List.length_cons, List.length_append, List.map_cons, List.sum_cons,
              hlen2]
            omega
          · intro hs4 hagree
            have hs4_s : hs4 s = some chd := by
              rw [hagree s (List.mem_cons_self s _), hst2 s s_not_c2, upd_same]
            have hD1 : (deallocSectors lvl chd hs4).Perm cC := by
              apply hdC hs4
              intro x hx
              rw [hagree x (List.mem_cons_of_mem s (List.mem_append.mpr (Or.inl hx))),
                hst2 x (cC_disj_c2 x hx), upd_ne hs1 chd
                  (fun he => s_not_cC (by rwa [he] at hx))]
            have hD2 : (rs'.foldr (fun s' acc =>
                (deallocSectors lvl ((hs4 s').getD defaultHdr) hs4 ++ [s']) ++ acc)
                []).Perm c2 := by
              apply hd2 hs4
              intro x hx
              exact hagree x (List.mem_cons_of_mem s (List.mem_append.mpr (Or.inr hx)))
            simp only [List.foldr_cons, hs4_s, Option.getD_some]
            refine List.Perm.trans
              (List.Perm.append (List.Perm.append hD1 (List.Perm.refl [s])) hD2) ?_
            have hsw : ((cC ++ [s]) ++ c2).Perm (([s] ++ cC) ++ c2) :=
              List.Perm.append List.perm_append_comm (List.Perm.refl c2)
            exact hsw

theorem allocLevel_sound : ∀ lvl : Nat,
    (∀ bytes u hs hdr C u2 hs2,
      allocLevel lvl bytes u hs = .ok (hdr, C, u2, hs2) →
        AllocInv lvl bytes u hs hdr C u2 hs2) ∧
    (∀ bytes u hs u1, allocLevel lvl bytes u hs = .error u1 → u1 = u) := by
  intro lvl
  induction lvl with
  | zero =>
    constructor
    · intro bytes u hs hdr C u2 hs2 h; simp [allocLevel] at h
    · intro bytes u hs u1 h
      simp only [allocLevel] at h
      injection h with h; exact h.symm
  | succ k ih =>
    cases k with
    | zero =>
      constructor
      · intro bytes u hs hdr C u2 hs2 h
        unfold allocLevel at h
        split at h
        · exact absurd h (by simp)
        · rename_i secs u' hN
          injection h with h
          rw [Prod.mk.injEq, Prod.mk.injEq, Prod.mk.injEq] at h
          obtain ⟨h1, h2, h3, h4⟩ := h
          subst h1; subst h2; subst h3; subst h4
          obtain ⟨nd, hfresh, hu, hlen, _⟩ := allocN_ok (ceilDiv bytes SectorSize) u secs u' hN
          refine ⟨nd, hfresh, hu, fun x _ => rfl, rfl, rfl, ?_, ?_⟩
          · simpa [neededSectors] using hlen
          · intro hs3 _
            rw [deallocSectors_level_one _ hs3 rfl]
      · intro bytes u hs u1 h
        unfold allocLevel at h
        split at h
        · rename_i u' hN
          injection h with h
          rw [← h]
          exact allocN_err (ceilDiv bytes SectorSize) u u' hN
        · exact absurd h (by simp)
    | succ k' =>
      obtain ⟨ihO, ihE⟩ := ih
      constructor
      · intro bytes u hs hdr C u2 hs2 h
        unfold allocLevel at h
        split at h
        · exact absurd h (by simp)
        · rename_i rs cAll u' hs' hch
          injection h with h
          rw [Prod.mk.injEq, Prod.mk.injEq, Prod.mk.injEq] at h
          obtain ⟨h1, h2, h3, h4⟩ := h
          subst h1; subst h2; subst h3; subst h4
          obtain ⟨nd, hfresh, hu, hst, hlen, hd⟩ :=
            allocChildren_ok (k' + 1) (allocLevel (k' + 1)) ihO ihE
              (childSizes bytes (NumDirect ^ (k' + 1) * SectorSize)) u hs rs cAll u' hs' hch
          refine ⟨nd, hfresh, hu, hst, rfl, rfl, ?_, ?_⟩
          · simpa [neededSectors] using hlen
          · intro hs3 hagree
            rw [deallocSectors_level_succ k' _ hs3 rfl]
            exact hd hs3 hagree
      · intro bytes u hs u1 h
        unfold allocLevel at h
        split at h
        · rename_i u' hch
          injection h with h
          rw [← h]
          exact allocChildren_err (k' + 1) (allocLevel (k' + 1)) ihO ihE
            (childSizes bytes (NumDirect ^ (k' + 1) * SectorSize)) u hs u' hch
        · exact absurd h (by simp)

theorem allocateMultiLevel_ok {byteLength : Nat} {u : Finset Nat} {hs : Store}
    {hdr : FileHeader} {C : List Nat} {u2 : Finset Nat} {hs2 : Store}
    (h : allocateMultiLevel byteLength u hs = .ok (hdr, C, u2, hs2)) :
    AllocInv (levelFor byteLength) byteLength u hs hdr C u2 hs2 :=
  (allocLevel_sound (levelFor byteLength)).1 byteLength u hs hdr C u2 hs2 h

theorem allocateMultiLevel_err {byteLength : Nat} {u : Finset Nat} {hs : Store}
    {u1 : Finset Nat} (h : allocateMultiLevel byteLength u hs = .error u1) : u1 = u :=
  (allocLevel_sound (levelFor byteLength)).2 byteLength u hs u1 h

theorem dealloc_foldl_of_perm {D C : List Nat} {w : Finset Nat} (hperm : D.Perm C)
    (hnd : C.Nodup) (hfresh : ∀ x ∈ C, x ∉ w) :
    List.foldl Finset.erase (w ∪ C.toFinset) D = w := by
  rw [← List.toFinset_eq_of_perm D C hperm]
  exact foldl_erase_union D w (hperm.nodup_iff.mpr hnd)
    (fun x hx => hfresh x (hperm.subset hx))

theorem findFirst_none_iff {α : Type} {p : α → Bool} :
    ∀ {l : List α}, findFirst p l = none ↔ ∀ a ∈ l, p a = false := by
  intro l
  induction l with
  | nil => simp [findFirst]
  | cons a as ih =>
    cases hp : p a with
    | true => simp [findFirst, hp]
    | false =>
      simp only [findFirst, hp, Bool.false_eq_true, if_false, Option.map_eq_none', List.mem_cons]
      constructor
      · intro h x hx
        rcases hx with rfl | hx
        · exact hp
        · exact ih.mp h x hx
      · intro h
        exact ih.mpr (fun x hx => h x (Or.inr hx))

theorem findFirst_some_spec {α : Type} (p : α → Bool) (d : α) :
    ∀ (l : List α) (i : Nat), findFirst p l = some i →
      i < l.length ∧ p (l.getD i d) = true ∧ ∀ k, k < i → p (l.getD k d) = false := by
  intro l
  induction l with
  | nil => intro i h; simp [findFirst] at h
  | cons a as ih =>
    intro i h
    cases hp : p a with
    | true =>
      simp only [findFirst, hp, if_true] at h
      injection h with h
      subst h
      exact ⟨by simp, by simpa using hp, fun k hk => absurd hk (by omega)⟩
    | false =>
      simp only [findFirst, hp, Bool.false_eq_true, if_false, Option.map_eq_some'] at h
      obtain ⟨i', hi', rfl⟩ := h
      obtain ⟨h1, h2, h3⟩ := ih i' hi'
      refine ⟨by simpa using h1, by simpa using h2, ?_⟩
      intro k hk
      cases k with
      | zero => simpa using hp
      | succ k => simpa using h3 k (by omega)

theorem findFirst_set {α : Type} (p : α → Bool) :
    ∀ (l : List α) (j : Nat) (a : α), (∀ x ∈ l, p x = false) → j < l.length →
      p a = true → findFirst p (l.set j a) = some j := by
  intro l
  induction l with
  | nil => intro j a _ h; simp at h
  | cons x xs ih =>
    intro j a hall hj hpa
    cases j with
    | zero => simp [findFirst, hpa]
    | succ j =>
      have hx : p x = false := hall x (List.mem_cons_self x xs)
      simp only [List.set_cons_succ, findFirst, hx, Bool.false_eq_true, if_false]
      rw [ih j a (fun y hy => hall y (List.mem_cons_of_mem x hy)) (by simpa using hj) hpa]
      rfl

theorem getD_set_self {α : Type} :
    ∀ (l : List α) (j : Nat) (a d : α), j < l.length → (l.set j a).getD j d = a := by
  intro l
  induction l with
  | nil => intro j a d h; simp at h
  | cons x xs ih =>
    intro j a d hj
    cases j with
    | zero => rfl
    | succ j => simpa [List.set_cons_succ, List.getD] using ih j a d (by simpa using hj)

theorem getD_set_ne {α : Type} :
    ∀ (l : List α) (j k : Nat) (a d : α), k ≠ j → (l.set j a).getD k d = l.getD k d := by
  intro l
  induction l with
  | nil => intro j k a d _; simp [List.set]
  | cons x xs ih =>
    intro j k a d hne
    cases j with
    | zero =>
      cases k with
      | zero => exact absurd rfl hne
      | succ k => rfl
    | succ j =>
      cases k with
      | zero => rfl
      | succ k => simpa [List.set_cons_succ, List.getD] using ih j k a d (by omega)

theorem nameMatch_take (nm : FName) : nameMatch (nm.take FileNameMaxLen) nm = true := by
  simp [nameMatch, List.take_take]

theorem dirAdd_eq_some {t : DirTable} {nm : FName} {s : Nat} {b : Bool} {t2 : DirTable}
    (h : dirAdd t nm s b = some t2) :
    ∃ j, findIndex t nm = none ∧ findFirst (fun e => !e.inUse) t = some j ∧
      j < t.length ∧ t2 = t.set j ⟨true, b, s, nm.take FileNameMaxLen⟩ := by
  unfold dirAdd at h
  split at h
  · exact absurd h (by simp)
  · rename_i hfind
    rw [Option.map_eq_some'] at h
    obtain ⟨j, hj, ht2⟩ := h
    exact ⟨j, hfind, hj, (findFirst_some_spec _ emptyEntry t j hj).1, ht2.symm⟩

theorem dirAdd_findIndex {t : DirTable} {nm : FName} {s : Nat} {b : Bool} {t2 : DirTable}
    (h : dirAdd t nm s b = some t2) :
    ∃ j, findIndex t2 nm = some j ∧
      t2.getD j emptyEntry = ⟨true, b, s, nm.take FileNameMaxLen⟩ := by
  obtain ⟨j, hfind, _, hlt, rfl⟩ := dirAdd_eq_some h
  refine ⟨j, ?_, getD_set_self t j _ emptyEntry hlt⟩
  unfold findIndex at hfind ⊢
  refine findFirst_set _ t j _ (findFirst_none_iff.mp hfind) hlt ?_
  simp [nameMatch_take]

theorem findIndex_emptyTable (nm : FName) : findIndex emptyTable nm = none := by
  apply findFirst_none_iff.mpr
  intro a ha
  rw [List.eq_of_mem_replicate ha]
  rfl

theorem findByAbsolutePath_single (tb : Tables) (t : DirTable) (nm : FName) :
    findByAbsolutePath tb t [nm] = (findIndex t nm).map
      (fun i => ((t.getD i emptyEntry).sector, (t.getD i emptyEntry).isDirectory)) := by
  unfold findByAbsolutePath
  cases findIndex t nm <;> rfl

/-- C1: for every requested `byteLength`, `AllocateMultiLevel` chooses
the extent-tree level as the minimum `k ≥ 1` with
`NumDirect ^ k * SectorSize ≥ byteLength`, where
`NumDirect = (SectorSize - 3 * sizeof(int)) / sizeof(int)`; in
particular `NumDirect = 29`, `SectorSize = 128`, byteLength 100 gives
level 1 and byteLength 5000 gives level 2. -/
theorem C1_alloc_level_minimal :
    ∀ byteLength : Nat,
      (byteLength ≤ NumDirect ^ levelFor byteLength * SectorSize ∧
        ∀ k, 1 ≤ k → byteLength ≤ NumDirect ^ k * SectorSize → levelFor byteLength ≤ k) ∧
      (∀ u hs hdr C u2 hs2,
        allocateMultiLevel byteLength u hs = .ok (hdr, C, u2, hs2) →
          hdr.level = levelFor byteLength) ∧
      NumDirect = 29 ∧ SectorSize = 128 ∧ levelFor 100 = 1 ∧ levelFor 5000 = 2 := by
  intro byteLength
  refine ⟨levelFor_min byteLength, ?_, by norm_num [NumDirect, SectorSize], rfl,
    by decide, by decide⟩
  intro u hs hdr C u2 hs2 h
  exact (allocateMultiLevel_ok h).2.2.2.2.1

/-- Witness for C1 at concrete inputs: level 2 suffices for 5000
bytes, so the minimal level is at most 2, and a concrete allocation of
100 bytes produces a header carrying the chosen level. -/
theorem C1_witness :
    levelFor 5000 ≤ 2 ∧
    ∃ hdr C u2 hs2,
      allocateMultiLevel 100 (insert 0 (insert 1 (∅ : Finset Nat)))
        (fun _ => none) = .ok (hdr, C, u2, hs2) ∧
      hdr.level = levelFor 100 := by
  refine ⟨(C1_alloc_level_minimal 5000).1.2 2 (by decide) (by decide), ?_⟩
  have hok : (allocateMultiLevel 100 (insert 0 (insert 1 (∅ : Finset Nat)))
      (fun _ => none)).isOk = true := by rfl
  cases hres : allocateMultiLevel 100 (insert 0 (insert 1 (∅ : Finset Nat)))
      (fun _ => none) with
  | error u1 => rw [hres] at hok; simp [Except.isOk, Except.toBool] at hok
  | ok v =>
    obtain ⟨hdr, C, u2, hs2⟩ := v
    exact ⟨hdr, C, u2, hs2, rfl,
      (C1_alloc_level_minimal 100).2.1 _ _ _ _ _ _ hres⟩

/-- C2: whenever `AllocateMultiLevel` succeeds (which is exactly the
case of enough free sectors), `DeallocateMultiLevel` on the resulting
header returns the bitmap to exactly its prior state; the cleared
sectors are pairwise distinct (no double free) and are exactly the
sectors the allocation claimed. -/
theorem C2_alloc_dealloc_roundtrip :
    ∀ (byteLength : Nat) (u : Finset Nat) (hs : Store) (hdr : FileHeader)
      (C : List Nat) (u2 : Finset Nat) (hs2 : Store),
      allocateMultiLevel byteLength u hs = .ok (hdr, C, u2, hs2) →
        deallocateMultiLevel hdr u2 hs2 = u ∧
        (deallocSectors hdr.level hdr hs2).Nodup ∧
        (deallocSectors hdr.level hdr hs2).toFinset = u2 \ u := by
  intro bytes u hs hdr C u2 hs2 h
  obtain ⟨nd, hfresh, hu, _, hlvl, _, _, hd⟩ := allocateMultiLevel_ok h
  have hperm : (deallocSectors hdr.level hdr hs2).Perm C := by
    rw [hlvl]; exact hd hs2 (fun x _ => rfl)
  have hndD : (deallocSectors hdr.level hdr hs2).Nodup := hperm.nodup_iff.mpr nd
  have htf : (deallocSectors hdr.level hdr hs2).toFinset = C.toFinset :=
    List.toFinset_eq_of_perm _ _ hperm
  refine ⟨?_, hndD, ?_⟩
  · unfold deallocateMultiLevel
    rw [hu]
    exact dealloc_foldl_of_perm hperm nd (fun x hx => (hfresh x hx).1)
  · rw [htf, hu]
    ext x
    simp only [Finset.mem_sdiff, Finset.mem_union, List.mem_toFinset]
    constructor
    · intro hx
      exact ⟨Or.inr hx, (hfresh x hx).1⟩
    · rintro ⟨hx | hx, hnu⟩
      · exact absurd hx hnu
      · exact hx

/-- Witness for C2: a concrete level-2 allocation of 5000 bytes from
the bitmap with sectors 0 and 1 used, followed by deallocation,
restores that bitmap. -/
theorem C2_witness :
    ∃ hdr C u2 hs2,
      allocateMultiLevel 5000 (insert 0 (insert 1 (∅ : Finset Nat)))
        (fun _ => none) = .ok (hdr, C, u2, hs2) ∧
      deallocateMultiLevel hdr u2 hs2 = insert 0 (insert 1 (∅ : Finset Nat)) := by
  have hok : (allocateMultiLevel 5000 (insert 0 (insert 1 (∅ : Finset Nat)))
      (fun _ => none)).isOk = true := by rfl
  cases hres : allocateMultiLevel 5000 (insert 0 (insert 1 (∅ : Finset Nat)))
      (fun _ => none) with
  | error u1 => rw [hres] at hok; simp [Except.isOk, Except.toBool] at hok
  | ok v =>
    obtain ⟨hdr, C, u2, hs2⟩ := v
    exact ⟨hdr, C, u2, hs2, rfl,
      (C2_alloc_dealloc_roundtrip 5000 _ _ _ _ _ _ hres).1⟩

/-- C3: when the requested size needs more sectors than are free in
the bitmap, `AllocateMultiLevel` returns failure and the bitmap it
hands back is exactly the bitmap from before the call — every
tentatively claimed sector has been released. -/
theorem C3_alloc_failure_releases :
    ∀ (byteLength : Nat) (u : Finset Nat) (hs : Store),
      freeCount u < neededSectors (levelFor byteLength) byteLength →
      allocateMultiLevel byteLength u hs = .error u := by
  intro bytes u hs hlt
  cases h : allocateMultiLevel bytes u hs with
  | ok v =>
    exfalso
    obtain ⟨hdr, C, u2, hs2⟩ := v
    obtain ⟨nd, hfresh, _, _, _, _, hlen, _⟩ := allocateMultiLevel_ok h
    have hsub : C.toFinset ⊆ (Finset.range NumSectors).filter (fun s => s ∉ u) := by
      intro x hx
      rw [List.mem_toFinset] at hx
      simp only [Finset.mem_filter, Finset.mem_range]
      exact ⟨(hfresh x hx).2, (hfresh x hx).1⟩
    have hcard : C.length ≤ freeCount u := by
      rw [← List.toFinset_card_of_nodup nd]
      exact Finset.card_le_card hsub
    omega
  | error u1 =>
    rw [allocateMultiLevel_err h]

/-- Witness for C3: with every sector already used no sector is free,
a 200-byte file needs two sectors, and the failing allocation returns
the bitmap unchanged. -/
theorem C3_witness :
    freeCount (Finset.range NumSectors) < neededSectors (levelFor 200) 200 ∧
    allocateMultiLevel 200 (Finset.range NumSectors) (fun _ => none) =
      .error (Finset.range NumSectors) := by
  have h0 : freeCount (Finset.range NumSectors) = 0 := by
    unfold freeCount
    rw [Finset.card_eq_zero, Finset.filter_eq_empty_iff]
    intro x hx
    simp [hx]
  have hneed : 0 < neededSectors (levelFor 200) 200 := by decide
  exact ⟨by omega, C3_alloc_failure_releases 200 _ _ (by omega)⟩

theorem findFirst_congr {α : Type} {p q : α → Bool} (h : ∀ x, p x = q x) :
    ∀ l : List α, findFirst p l = findFirst q l := by
  intro l
  induction l with
  | nil => rfl
  | cons a as ih => simp only [findFirst, h a, ih]

/-- C8 counterexample: parsing the root path, the single slash, yields
one (empty) name component — the constructor counts slash characters —
so the parsed depth is 1, not the claimed 0. -/
theorem C8_counterexample :
    parseAbsolutePath ['/'] = some [[]] ∧
    (parseAbsolutePath ['/']).map List.length ≠ some 0 := by decide

/-- C8 as amended: parsing the single slash yields depth 1 with one
empty name component (depth is the number of slash characters), and
`GetSector` still resolves the single-slash path directly to the given
root sector without consulting any directory table (the result is the
same for every table store and root table). -/
theorem C8_root_path_amended :
    parseAbsolutePath ['/'] = some [[]] ∧
    ∀ (tb : Tables) (rootDir : DirTable) (rootSector : Nat),
      getSector tb rootDir rootSector ⟨['/'], [[]]⟩ = some rootSector := by
  exact ⟨by decide, fun tb rootDir rootSector => rfl⟩

/-- C6 counterexample: a non-final path component (`a`) resolves to an
in-use entry that is a plain file (`isDirectory = false`, header
sector 5); resolution does not fail — `FindByAbsolutePath` reads the
file's contents as a directory table and returns the entry `b` found
there. -/
theorem C6_counterexample :
    findIndex rootWithFileA ['a'] = some 0 ∧
    (rootWithFileA.getD 0 emptyEntry).isDirectory = false ∧
    findByAbsolutePath fileContentTables rootWithFileA [['a'], ['b']] =
      some (7, false) := by decide

/-- C6 as amended: `FindByAbsolutePath` recurses into a matched
non-final component unconditionally — the entry's `isDirectory` flag
is never consulted, the entry's sector is fetched as a directory table
whether or not the entry is a directory, and no
`PathComponentNotADirectory` failure exists. -/
theorem C6_find_recurses_unconditionally :
    ∀ (tb : Tables) (t : DirTable) (nm : FName) (rest : List FName) (i : Nat),
      findIndex t nm = some i → rest ≠ [] →
      findByAbsolutePath tb t (nm :: rest) =
        findByAbsolutePath tb ((tb ((t.getD i emptyEntry).sector)).getD emptyTable)
          rest := by
  intro tb t nm rest i hfi hne
  cases rest with
  | nil => exact absurd rfl hne
  | cons r rs =>
    unfold findByAbsolutePath
    rw [hfi]
    rfl

/-- Witness for C6's amended statement at the concrete file-as-directory
fixture. -/
theorem C6_witness :
    findByAbsolutePath fileContentTables rootWithFileA [['a'], ['b']] =
      findByAbsolutePath fileContentTables
        ((fileContentTables ((rootWithFileA.getD 0 emptyEntry).sector)).getD emptyTable)
        [['b']] :=
  C6_find_recurses_unconditionally fileContentTables rootWithFileA ['a'] [['b']] 0
    (by decide) (by decide)

/-- C9: when a table has an in-use entry matching `name`,
`Directory::Remove` succeeds, clears exactly that entry's `inUse` flag
(name, sector and kind of the slot and every other slot are
unchanged, no compaction); and `Directory::Add` with a fresh name
succeeds whenever at least one slot is not in use. -/
theorem C9_remove_frame_add :
    ∀ (t : DirTable) (nm : FName) (i : Nat),
      findIndex t nm = some i →
      (∃ t2, dirRemove t nm = some t2 ∧
        t2 = t.set i { t.getD i emptyEntry with inUse := false } ∧
        (∀ k, k ≠ i → t2.getD k emptyEntry = t.getD k emptyEntry) ∧
        (t2.getD i emptyEntry).name = (t.getD i emptyEntry).name ∧
        (t2.getD i emptyEntry).sector = (t.getD i emptyEntry).sector ∧
        (t2.getD i emptyEntry).isDirectory = (t.getD i emptyEntry).isDirectory ∧
        (t2.getD i emptyEntry).inUse = false) ∧
      (∀ (t' : DirTable) (nm2 : FName) (s2 : Nat) (b2 : Bool),
        findIndex t' nm2 = none → (∃ e ∈ t', e.inUse = false) →
        ∃ t3, dirAdd t' nm2 s2 b2 = some t3) := by
  intro t nm i hfi
  have hlt : i < t.length := (findFirst_some_spec _ emptyEntry t i hfi).1
  constructor
  · refine ⟨t.set i { t.getD i emptyEntry with inUse := false }, ?_, rfl, ?_, ?_, ?_, ?_, ?_⟩
    · simp [dirRemove, hfi]
    · intro k hk; exact getD_set_ne t i k _ emptyEntry hk
    · rw [getD_set_self t i _ emptyEntry hlt]
    · rw [getD_set_self t i _ emptyEntry hlt]
    · rw [getD_set_self t i _ emptyEntry hlt]
    · rw [getD_set_self t i _ emptyEntry hlt]
  · intro t' nm2 s2 b2 hfresh hslot
    obtain ⟨e, he, huse⟩ := hslot
    cases hff : findFirst (fun e => !e.inUse) t' with
    | none =>
      exfalso
      have := findFirst_none_iff.mp hff e he
      simp [huse] at this
    | some j =>
      exact ⟨t'.set j ⟨true, b2, s2, nm2.take FileNameMaxLen⟩,
        by simp [dirAdd, hfresh, hff]⟩

/-- Witness for C9 at a concrete table: removing `a` clears its slot
and a subsequent `Add` of the fresh name `c` succeeds. -/
theorem C9_witness :
    ∃ t2, dirRemove rootWithFileA ['a'] = some t2 ∧
      (t2.getD 0 emptyEntry).inUse = false ∧
      ∃ t3, dirAdd t2 ['c'] 9 false = some t3 := by
  obtain ⟨⟨t2, h1, h2, _, _, _, _, h7⟩, hadd⟩ :=
    C9_remove_frame_add rootWithFileA ['a'] 0 (by decide)
  subst h2
  exact ⟨_, h1, h7, hadd _ ['c'] 9 false (by decide) (by decide)⟩

/-- C10: directory name matching compares only the first
`FileNameMaxLen` characters; two names agreeing on that prefix are the
same name to `FindIndex`, and after `Add` of the first, `Add` of the
second is rejected as a duplicate even though the full strings
differ. -/
theorem C10_name_truncation :
    ∀ (t : DirTable) (a b : FName), a.take FileNameMaxLen = b.take FileNameMaxLen →
      findIndex t a = findIndex t b ∧
      (∀ s d t2, dirAdd t a s d = some t2 → ∀ s2 d2, dirAdd t2 b s2 d2 = none) := by
  intro t a b hab
  have hfi : ∀ t' : DirTable, findIndex t' a = findIndex t' b := by
    intro t'
    unfold findIndex
    exact findFirst_congr (fun e => by simp [nameMatch, hab]) t'
  refine ⟨hfi t, ?_⟩
  intro s d t2 hadd s2 d2
  obtain ⟨j, hj, _⟩ := dirAdd_findIndex hadd
  unfold dirAdd
  rw [← hfi t2, hj]

/-- Witness for C10: `Add` of the ten-character name `nameAX` makes a
later `Add` of `nameAY` (same first nine characters) fail as a
duplicate. -/
theorem C10_witness :
    ∃ t2, dirAdd emptyTable nameAX 5 false = some t2 ∧
      dirAdd t2 nameAY 6 false = none := by
  cases hadd : dirAdd emptyTable nameAX 5 false with
  | none => exact absurd hadd (by decide)
  | some t2 =>
    exact ⟨t2, rfl,
      (C10_name_truncation emptyTable nameAX nameAY (by decide)).2 5 false t2 hadd 6 false⟩

theorem getUpperLevelSector_one (tb : Tables) (rootDir : DirTable) (rootSector : Nat)
    (text : List Char) (nm : FName) :
    getUpperLevelSector tb rootDir rootSector ⟨text, [nm]⟩ = some rootSector := by
  simp [getUpperLevelSector]

theorem modelCreate_steps (st : DiskState) (text : List Char) (comps : List FName)
    (n : Nat) (hparse : parseAbsolutePath text = some comps) (dirSector : Nat)
    (hupper : getUpperLevelSector st.tables ((st.tables DirectorySector).getD emptyTable)
      DirectorySector ⟨text, comps⟩ = some dirSector) :
    modelCreate st text n =
      match getSector st.tables ((st.tables dirSector).getD emptyTable)
          DirectorySector ⟨text, comps⟩ with
      | some _ => .done (false, st)
      | none =>
        match findAndSet st.used with
        | none => .done (false, st)
        | some sector =>
          match dirAdd ((st.tables dirSector).getD emptyTable) (lastName comps)
              sector false with
          | none => .done (false, st)
          | some directory2 =>
            match allocateMultiLevel n (insert sector st.used) st.headers with
            | .error _ => .done (false, st)
            | .ok (hdr, _, used2, headers2) =>
              .done (true,
                ⟨used2, upd headers2 sector hdr, upd st.tables dirSector directory2⟩) := by
  unfold modelCreate
  rw [hparse]
  show (match getUpperLevelSector st.tables ((st.tables DirectorySector).getD emptyTable)
      DirectorySector ⟨text, comps⟩ with
    | none => OpResult.aborted
    | some dirSector => _) = _
  rw [hupper]

theorem modelCreateDirectory_steps (st : DiskState) (text : List Char)
    (comps : List FName) (hparse : parseAbsolutePath text = some comps) :
    modelCreateDirectory st text =
      match getSector st.tables ((st.tables DirectorySector).getD emptyTable)
          DirectorySector ⟨text, comps⟩ with
      | some _ => .aborted
      | none =>
        match findAndSet st.used with
        | none => .aborted
        | some newSector =>
          match allocateMultiLevel DirectoryFileSize (insert newSector st.used)
              st.headers with
          | .error _ => .aborted
          | .ok (dirHdr, _, used2, headers2) =>
            match getUpperLevelSector (upd st.tables newSector emptyTable)
                ((st.tables DirectorySector).getD emptyTable) DirectorySector
                ⟨text, comps⟩ with
            | none => .aborted
            | some dirSector =>
              .done ⟨used2, upd headers2 newSector dirHdr,
                upd (upd st.tables newSector emptyTable) dirSector
                  ((dirAdd (((upd st.tables newSector emptyTable) dirSector).getD
                      emptyTable) (lastName comps) newSector true).getD
                    (((upd st.tables newSector emptyTable) dirSector).getD
                      emptyTable))⟩ := by
  unfold modelCreateDirectory
  rw [hparse]

theorem modelRemoveRecursively_steps (st : DiskState) (text : List Char)
    (comps : List FName) (hparse : parseAbsolutePath text = some comps) :
    modelRemoveRecursively st text =
      match findByAbsolutePath st.tables ((st.tables DirectorySector).getD emptyTable)
          comps with
      | none => .aborted
      | some (sector, isDirectory) =>
        if isDirectory then
          match getUpperLevelSector st.tables
              ((st.tables DirectorySector).getD emptyTable) DirectorySector
              ⟨text, comps⟩ with
          | none => .aborted
          | some ups =>
            .done (true,
              ⟨(deallocateMultiLevel ((st.headers sector).getD defaultHdr)
                  (removeAll NumSectors st.tables st.headers
                    ((st.tables sector).getD emptyTable) st.used)
                  st.headers).erase sector,
                st.headers,
                upd st.tables ups
                  ((dirRemove ((st.tables ups).getD emptyTable)
                      (lastName comps)).getD ((st.tables ups).getD emptyTable))⟩)
        else modelRemove st text := by
  unfold modelRemoveRecursively
  rw [hparse]

/-- C4: if `Create` of path `/a` succeeds, a second `Create` of the
same path returns failure for every requested size, and the returned
disk state — directory tables and bitmap included — is exactly the
state from before the second call. -/
theorem C4_create_duplicate_fails :
    ∀ (st : DiskState) (n m : Nat) (st1 : DiskState),
      modelCreate st ['/', 'a'] n = .done (true, st1) →
      modelCreate st1 ['/', 'a'] m = .done (false, st1) := by
  intro st n m st1 h
  have hparse : parseAbsolutePath ['/', 'a'] = some [['a']] := rfl
  rw [modelCreate_steps st ['/', 'a'] [['a']] n hparse DirectorySector
    (getUpperLevelSector_one _ _ _ _ _)] at h
  split at h
  · simp at h
  · split at h
    · simp at h
    · rename_i sector hfas
      split at h
      · simp at h
      · rename_i directory2 hadd
        split at h
        · simp at h
        · rename_i hdr Ccl used2 headers2 halloc
          injection h with h
          have hst1 : st1 =
              ⟨used2, upd headers2 sector hdr, upd st.tables DirectorySector directory2⟩ :=
            (congrArg Prod.snd h).symm
          subst hst1
          obtain ⟨j, hj, _⟩ := dirAdd_findIndex hadd
          rw [modelCreate_steps _ ['/', 'a'] [['a']] m hparse DirectorySector
            (getUpperLevelSector_one _ _ _ _ _)]
          show (match getSector (upd st.tables DirectorySector directory2)
              (((upd st.tables DirectorySector directory2) DirectorySector).getD
                emptyTable) DirectorySector ⟨['/', 'a'], [['a']]⟩ with
            | some _ => OpResult.done (false,
                (⟨used2, upd headers2 sector hdr,
                  upd st.tables DirectorySector directory2⟩ : DiskState))
            | none => _) = _
          rw [upd_same]
          have hgs2 : getSector (upd st.tables DirectorySector directory2)
              ((some directory2).getD emptyTable) DirectorySector
              ⟨['/', 'a'], [['a']]⟩ = some ((directory2.getD j emptyEntry).sector) := by
            unfold getSector
            rw [if_neg (by decide), findByAbsolutePath_single]
            simp only [Option.getD_some]
            have hjj : findIndex directory2 ['a'] = some j := hj
            rw [hjj]
            rfl
          rw [hgs2]

/-- Witness for C4: on a freshly formatted disk, `Create("/a", 10)`
succeeds and the repeated `Create("/a", 7)` fails leaving the state
untouched. -/
theorem C4_witness :
    ∃ st1, modelCreate baseState ['/', 'a'] 10 = .done (true, st1) ∧
      modelCreate st1 ['/', 'a'] 7 = .done (false, st1) := by
  have hflag : (match modelCreate baseState ['/', 'a'] 10 with
      | OpResult.done (b, _) => b
      | OpResult.aborted => false) = true := by rfl
  cases hres : modelCreate baseState ['/', 'a'] 10 with
  | aborted => rw [hres] at hflag; simp at hflag
  | done v =>
    obtain ⟨b, st1⟩ := v
    rw [hres] at hflag
    simp only at hflag
    subst hflag
    exact ⟨st1, rfl, C4_create_duplicate_fails baseState 10 7 st1 hres⟩

theorem modelRemove_steps (st : DiskState) (text : List Char) (comps : List FName)
    (hparse : parseAbsolutePath text = some comps) :
    modelRemove st text =
      match getUpperLevelSector st.tables ((st.tables DirectorySector).getD emptyTable)
          DirectorySector ⟨text, comps⟩ with
      | none => .aborted
      | some dirSector =>
        match getSector st.tables ((st.tables DirectorySector).getD emptyTable)
            DirectorySector ⟨text, comps⟩ with
        | none => .done (false, st)
        | some sector =>
          .done (true,
            ⟨(deallocateMultiLevel ((st.headers sector).getD defaultHdr) st.used
                st.headers).erase sector,
              st.headers,
              upd st.tables dirSector
                ((dirRemove ((st.tables dirSector).getD emptyTable)
                    (lastName comps)).getD ((st.tables dirSector).getD emptyTable))⟩) := by
  unfold modelRemove
  rw [hparse]

theorem findAndSet_full : findAndSet (Finset.range NumSectors) = none := by
  unfold findAndSet
  rw [List.find?_eq_none]
  intro x hx
  have hmem : x ∈ Finset.range NumSectors := Finset.mem_range.mpr (List.mem_range.mp hx)
  simp [hmem]

theorem freeCount_range_zero : freeCount (Finset.range NumSectors) = 0 := by
  unfold freeCount
  rw [Finset.card_eq_zero, Finset.filter_eq_empty_iff]
  intro x hx
  simp [hx]

theorem allocateMultiLevel_err_of_shortfall :
    ∀ (byteLength : Nat) (u : Finset Nat) (hs : Store),
      freeCount u < neededSectors (levelFor byteLength) byteLength →
      allocateMultiLevel byteLength u hs = .error u := by
  intro bytes u hs hlt
  cases h : allocateMultiLevel bytes u hs with
  | ok v =>
    exfalso
    obtain ⟨hdr, C, u2, hs2⟩ := v
    obtain ⟨nd, hfresh, _, _, _, _, hlen, _⟩ := allocateMultiLevel_ok h
    have hsub : C.toFinset ⊆ (Finset.range NumSectors).filter (fun s => s ∉ u) := by
      intro x hx
      rw [List.mem_toFinset] at hx
      simp only [Finset.mem_filter, Finset.mem_range]
      exact ⟨(hfresh x hx).2, (hfresh x hx).1⟩
    have hcard : C.length ≤ freeCount u := by
      rw [← List.toFinset_card_of_nodup nd]
      exact Finset.card_le_card hsub
    omega
  | error u1 =>
    rw [allocateMultiLevel_err h]

/-- C7 counterexample: `CreateDirectory` on a path that already exists
does not surface a failure result — the existence check is an
`ASSERT`, fatal to the process (modelled `aborted`). -/
theorem C7_counterexample :
    modelCreateDirectory stateWithDirD ['/', 'd'] = OpResult.aborted := by rfl

/-- C7 as amended: `Create`, `Remove` (when the path parses and the
parent resolves) and `Open` (when the path parses) surface every
failure as a boolean/NULL result and never abort; but
`CreateDirectory` aborts the process on `NameAlreadyExists`, on
`NoFreeSector` and on a failed extent allocation (all three checks are
`ASSERT`s), `RemoveRecursively` aborts on `NameNotFound`, and `Create`
aborts when its parent path does not resolve. -/
theorem C7_error_surfacing_amended :
    (∀ (st : DiskState) (text : List Char) (comps : List FName) (n dirSector : Nat),
      parseAbsolutePath text = some comps →
      getUpperLevelSector st.tables ((st.tables DirectorySector).getD emptyTable)
        DirectorySector ⟨text, comps⟩ = some dirSector →
      ∃ b st', modelCreate st text n = .done (b, st')) ∧
    (∀ (st : DiskState) (text : List Char) (comps : List FName) (dirSector : Nat),
      parseAbsolutePath text = some comps →
      getUpperLevelSector st.tables ((st.tables DirectorySector).getD emptyTable)
        DirectorySector ⟨text, comps⟩ = some dirSector →
      ∃ b st', modelRemove st text = .done (b, st')) ∧
    (∀ (st : DiskState) (text : List Char) (comps : List FName),
      parseAbsolutePath text = some comps →
      ∃ r, modelOpen st text = .done r) ∧
    (∀ (st : DiskState) (text : List Char) (comps : List FName),
      parseAbsolutePath text = some comps →
      (getSector st.tables ((st.tables DirectorySector).getD emptyTable)
        DirectorySector ⟨text, comps⟩).isSome = true →
      modelCreateDirectory st text = .aborted) ∧
    (∀ (st : DiskState) (text : List Char) (comps : List FName),
      parseAbsolutePath text = some comps →
      findByAbsolutePath st.tables ((st.tables DirectorySector).getD emptyTable)
        comps = none →
      modelRemoveRecursively st text = .aborted) ∧
    (∀ (st : DiskState) (text : List Char) (comps : List FName) (n : Nat),
      parseAbsolutePath text = some comps →
      getUpperLevelSector st.tables ((st.tables DirectorySector).getD emptyTable)
        DirectorySector ⟨text, comps⟩ = none →
      modelCreate st text n = .aborted) ∧
    (∀ (st : DiskState) (text : List Char) (comps : List FName),
      parseAbsolutePath text = some comps →
      getSector st.tables ((st.tables DirectorySector).getD emptyTable)
        DirectorySector ⟨text, comps⟩ = none →
      findAndSet st.used = none →
      modelCreateDirectory st text = .aborted) ∧
    (∀ (st : DiskState) (text : List Char) (comps : List FName) (newSector : Nat)
      (u' : Finset Nat),
      parseAbsolutePath text = some comps →
      getSector st.tables ((st.tables DirectorySector).getD emptyTable)
        DirectorySector ⟨text, comps⟩ = none →
      findAndSet st.used = some newSector →
      allocateMultiLevel DirectoryFileSize (insert newSector st.used) st.headers =
        .error u' →
      modelCreateDirectory st text = .aborted) := by
  refine ⟨?_, ?_, ?_, ?_, ?_, ?_, ?_, ?_⟩
  · intro st text comps n dirSector hparse hupper
    rw [modelCreate_steps st text comps n hparse dirSector hupper]
    split
    · exact ⟨false, st, rfl⟩
    · split
      · exact ⟨false, st, rfl⟩
      · split
        · exact ⟨false, st, rfl⟩
        · split
          · exact ⟨false, st, rfl⟩
          · exact ⟨true, _, rfl⟩
  · intro st text comps dirSector hparse hupper
    rw [modelRemove_steps st text comps hparse, hupper]
    dsimp only
    split
    · exact ⟨false, st, rfl⟩
    · exact ⟨true, _, rfl⟩
  · intro st text comps hparse
    unfold modelOpen
    rw [hparse]
    exact ⟨_, rfl⟩
  · intro st text comps hparse hsome
    rw [modelCreateDirectory_steps st text comps hparse]
    obtain ⟨x, hx⟩ := Option.isSome_iff_exists.mp hsome
    rw [hx]
  · intro st text comps hparse hfind
    rw [modelRemoveRecursively_steps st text comps hparse, hfind]
  · intro st text comps n hparse hupper
    unfold modelCreate
    rw [hparse]
    show (match getUpperLevelSector st.tables
        ((st.tables DirectorySector).getD emptyTable) DirectorySector
        ⟨text, comps⟩ with
      | none => OpResult.aborted
      | some dirSector => _) = _
    rw [hupper]
  · intro st text comps hparse hgs hfas
    rw [modelCreateDirectory_steps st text comps hparse, hgs]
    dsimp only
    rw [hfas]
  · intro st text comps newSector u' hparse hgs hfas halloc
    rw [modelCreateDirectory_steps st text comps hparse, hgs]
    dsimp only
    rw [hfas]
    dsimp only
    rw [halloc]

/-- Witness for C7's amended statement: a concrete `Remove` surfaces
its result; a duplicate `CreateDirectory` aborts; a
`RemoveRecursively` of a missing path aborts; a `Create` under a
missing parent aborts; `CreateDirectory` aborts on a full bitmap; and
`CreateDirectory` aborts when the header sector is found but the
extent allocation fails for lack of sectors. -/
theorem C7_witness :
    (∃ b st', modelRemove baseState ['/', 'a'] = .done (b, st')) ∧
    modelCreateDirectory stateWithDirD ['/', 'd'] = OpResult.aborted ∧
    modelRemoveRecursively baseState ['/', 'q'] = OpResult.aborted ∧
    modelCreate baseState ['/', 'x', '/', 'y'] 5 = OpResult.aborted ∧
    modelCreateDirectory fullState ['/', 'e'] = OpResult.aborted ∧
    modelCreateDirectory oneFreeState ['/', 'e'] = OpResult.aborted := by
  have hins : insert 5 ((Finset.range NumSectors).erase 5) = Finset.range NumSectors :=
    Finset.insert_erase (Finset.mem_range.mpr (by norm_num [NumSectors]))
  have hshort : freeCount (insert 5 ((Finset.range NumSectors).erase 5)) <
      neededSectors (levelFor DirectoryFileSize) DirectoryFileSize := by
    rw [hins, freeCount_range_zero]
    decide
  refine ⟨C7_error_surfacing_amended.2.1 baseState ['/', 'a'] [['a']] DirectorySector rfl
      (getUpperLevelSector_one _ _ _ _ _),
    C7_error_surfacing_amended.2.2.2.1 stateWithDirD ['/', 'd'] [['d']] rfl (by decide),
    C7_error_surfacing_amended.2.2.2.2.1 baseState ['/', 'q'] [['q']] rfl (by decide),
    C7_error_surfacing_amended.2.2.2.2.2.1 baseState ['/', 'x', '/', 'y']
      [['x'], ['y']] 5 rfl (by decide),
    C7_error_surfacing_amended.2.2.2.2.2.2.1 fullState ['/', 'e'] [['e']] rfl
      (by decide) findAndSet_full,
    C7_error_surfacing_amended.2.2.2.2.2.2.2 oneFreeState ['/', 'e'] [['e']] 5 _ rfl
      (by decide) (by decide)
      (allocateMultiLevel_err_of_shortfall DirectoryFileSize _ emptyStore hshort)⟩

theorem allocN_isOk : ∀ n u, n ≤ freeCount u → ∃ l u1, allocN n u = .ok (l, u1) := by
  intro n
  induction n with
  | zero => intro u _; exact ⟨[], u, rfl⟩
  | succ n ih =>
    intro u hfree
    have h0 : 0 < freeCount u := by omega
    obtain ⟨s, hfs⟩ := findAndSet_isSome_of_free h0
    obtain ⟨hsu, hsN⟩ := findAndSet_mem hfs
    have hfc := freeCount_insert hsu hsN
    obtain ⟨l, u1, hrec⟩ := ih (insert s u) (by omega)
    refine ⟨s :: l, u1, ?_⟩
    unfold allocN
    rw [hfs]
    dsimp only
    rw [hrec]

theorem allocateMultiLevel_level1 (bytes : Nat) (u : Finset Nat) (hs : Store)
    (hlvl : levelFor bytes = 1) (hfree : ceilDiv bytes SectorSize ≤ freeCount u) :
    ∃ secs u1,
      allocateMultiLevel bytes u hs = .ok (⟨bytes, secs.length, 1, secs⟩, secs, u1, hs) ∧
      freeCount u = freeCount u1 + ceilDiv bytes SectorSize := by
  obtain ⟨l, u1, hN⟩ := allocN_isOk (ceilDiv bytes SectorSize) u hfree
  obtain ⟨_, _, _, hlen, hfc⟩ := allocN_ok (ceilDiv bytes SectorSize) u l u1 hN
  refine ⟨l, u1, ?_, by omega⟩
  unfold allocateMultiLevel
  rw [hlvl]
  show (match allocN (ceilDiv bytes SectorSize) u with
    | Except.error u1 => Except.error u1
    | Except.ok (secs, u1) =>
        Except.ok ((⟨bytes, secs.length, 1, secs⟩ : FileHeader), secs, u1, hs)) = _
  rw [hN]

theorem findByAbsolutePath_none (tb : Tables) (t : DirTable) (nm : FName)
    (rest : List FName) (h : findIndex t nm = none) :
    findByAbsolutePath tb t (nm :: rest) = none := by
  unfold findByAbsolutePath
  rw [h]

theorem firstFree_emptyTable :
    findFirst (fun e => !e.inUse) emptyTable = some 0 := by decide

theorem removeAll_succ (fuel : Nat) (tb : Tables) (hd : Store) (t : DirTable)
    (u : Finset Nat) :
    removeAll (fuel + 1) tb hd t u = removeAllGo (removeAll fuel tb hd) tb hd t u := rfl

theorem removeAllGo_cons (recSub : DirTable → Finset Nat → Finset Nat) (tb : Tables)
    (hd : Store) (e : DirectoryEntry) (es : List DirectoryEntry) (u : Finset Nat) :
    removeAllGo recSub tb hd (e :: es) u = removeAllGo recSub tb hd es
      (if e.inUse then
        (deallocateMultiLevel ((hd e.sector).getD defaultHdr)
          (if e.isDirectory then recSub ((tb e.sector).getD emptyTable) u else u)
          hd).erase e.sector
      else u) := rfl

theorem removeAllGo_replicate (recSub : DirTable → Finset Nat → Finset Nat)
    (tb : Tables) (hd : Store) :
    ∀ (n : Nat) (u : Finset Nat),
      removeAllGo recSub tb hd (List.replicate n emptyEntry) u = u := by
  intro n
  induction n with
  | zero => intro u; rfl
  | succ n ih =>
    intro u
    rw [List.replicate_succ, removeAllGo_cons,
      if_neg (show ¬(emptyEntry.inUse = true) by decide)]
    exact ih u

theorem dirAdd_isSome (t : DirTable) (nm : FName) (s : Nat) (b : Bool)
    (hfresh : findIndex t nm = none) (hslot : ∃ e ∈ t, e.inUse = false) :
    ∃ t2, dirAdd t nm s b = some t2 := by
  obtain ⟨e, he, huse⟩ := hslot
  cases hff : findFirst (fun e => !e.inUse) t with
  | none =>
    exfalso
    have := findFirst_none_iff.mp hff e he
    simp [huse] at this
  | some j =>
    exact ⟨t.set j ⟨true, b, s, nm.take FileNameMaxLen⟩, by simp [dirAdd, hfresh, hff]⟩

theorem getUpperLevelSector_df (tb : Tables) (rootDir : DirTable) (rootSector : Nat) :
    getUpperLevelSector tb rootDir rootSector ⟨['/', 'd', '/', 'f'], [['d'], ['f']]⟩ =
      (findByAbsolutePath tb rootDir [['d']]).map Prod.fst := rfl

theorem removeAll_single_file (fuel : Nat) (tb : Tables) (hd : Store) (n2 : Nat)
    (nmf : FName) (u : Finset Nat) (hdrF : FileHeader) (hhd : hd n2 = some hdrF)
    (hlvl : hdrF.level = 1) (nrep : Nat) :
    removeAll (fuel + 1) tb hd
      ((⟨true, false, n2, nmf⟩ : DirectoryEntry) :: List.replicate nrep emptyEntry) u =
      (List.foldl Finset.erase u hdrF.dataSectors).erase n2 := by
  rw [removeAll_succ, removeAllGo_cons]
  dsimp only
  rw [if_pos (rfl : (true : Bool) = true),
    if_neg (show ¬((false : Bool) = true) from fun h => Bool.noConfusion h),
    hhd]
  simp only [Option.getD_some]
  rw [removeAllGo_replicate]
  unfold deallocateMultiLevel
  rw [hlvl, deallocSectors_level_one _ _ hlvl]

/-- C5: from any state whose root table is on disk without a `d`
entry and with a free slot, whose root header sector is marked used,
and which has at least 13 free sectors, the sequence
`CreateDirectory("/d")`, `Create("/d/f", 10)`,
`RemoveRecursively("/d")` succeeds and leaves the bitmap with exactly
the set of used sectors it had before `CreateDirectory` was called
(the nested file's data sector, both header sectors and the
subdirectory's ten data sectors are each reclaimed exactly once). -/
theorem C5_create_remove_restores_bitmap :
    ∀ (st : DiskState) (T : DirTable),
      st.tables DirectorySector = some T →
      findIndex T ['d'] = none →
      (∃ e ∈ T, e.inUse = false) →
      DirectorySector ∈ st.used →
      13 ≤ freeCount st.used →
      ∃ st1 st2 st3,
        modelCreateDirectory st ['/', 'd'] = .done st1 ∧
        modelCreate st1 ['/', 'd', '/', 'f'] 10 = .done (true, st2) ∧
        modelRemoveRecursively st2 ['/', 'd'] = .done (true, st3) ∧
        st3.used = st.used := by
  intro st T hT hfid hslot h1u hfree
  have hparse_d : parseAbsolutePath ['/', 'd'] = some [['d']] := rfl
  have hparse_df : parseAbsolutePath ['/', 'd', '/', 'f'] = some [['d'], ['f']] := rfl
  have hlast_d : lastName [['d']] = ['d'] := rfl
  have hlast_f : lastName [['d'], ['f']] = ['f'] := rfl
  obtain ⟨n1, hfas1⟩ := findAndSet_isSome_of_free (u := st.used) (by omega)
  obtain ⟨hn1u, hn1N⟩ := findAndSet_mem hfas1
  have hfc1 := freeCount_insert hn1u hn1N
  obtain ⟨cD, u1, halloc1, hfc2⟩ :=
    allocateMultiLevel_level1 DirectoryFileSize (insert n1 st.used) st.headers
      (by decide)
      (by rw [(by decide : ceilDiv DirectoryFileSize SectorSize = 10)]; omega)
  obtain ⟨ndD, freshD, huD, _, _, _, _, _⟩ := allocateMultiLevel_ok halloc1
  obtain ⟨T1, hadd1⟩ := dirAdd_isSome T ['d'] n1 true hfid hslot
  obtain ⟨j2, hj2, hent2⟩ := dirAdd_findIndex hadd1
  have hdir_ne_n1 : ¬((DirectorySector : Nat) = n1) := fun he => hn1u (he ▸ h1u)
  have hn1_ne_dir : ¬(n1 = (DirectorySector : Nat)) := fun he => hdir_ne_n1 he.symm
  have hgs1 : getSector st.tables T DirectorySector ⟨['/', 'd'], [['d']]⟩ = none := by
    unfold getSector
    rw [if_neg (by decide), findByAbsolutePath_none st.tables T ['d'] [] hfid]
    rfl
  have hop1 : modelCreateDirectory st ['/', 'd'] = .done
      ⟨u1, upd st.headers n1 ⟨DirectoryFileSize, cD.length, 1, cD⟩,
        upd (upd st.tables n1 emptyTable) DirectorySector T1⟩ := by
    rw [modelCreateDirectory_steps st ['/', 'd'] [['d']] hparse_d, hT]
    simp only [Option.getD_some]
    rw [hgs1]
    dsimp only
    rw [hfas1]
    dsimp only
    rw [halloc1]
    dsimp only
    rw [getUpperLevelSector_one]
    dsimp only
    rw [upd_ne st.tables emptyTable hdir_ne_n1, hT]
    simp only [Option.getD_some]
    rw [hlast_d, hadd1]
    rfl
  -- operation 2
  have hupper2 : getUpperLevelSector
      (upd (upd st.tables n1 emptyTable) DirectorySector T1)
      ((upd (upd st.tables n1 emptyTable) DirectorySector T1 DirectorySector).getD
        emptyTable)
      DirectorySector ⟨['/', 'd', '/', 'f'], [['d'], ['f']]⟩ = some n1 := by
    rw [upd_same]
    simp only [Option.getD_some]
    rw [getUpperLevelSector_df, findByAbsolutePath_single, hj2]
    simp only [Option.map_some']
    rw [hent2]
  have hcdD : ceilDiv DirectoryFileSize SectorSize = 10 := by decide
  rw [hcdD] at hfc2
  obtain ⟨n2, hfas2⟩ := findAndSet_isSome_of_free (u := u1) (by omega)
  obtain ⟨hn2u, hn2N⟩ := findAndSet_mem hfas2
  have hfc3 := freeCount_insert hn2u hn2N
  obtain ⟨cF, u2, halloc2, hfc4⟩ :=
    allocateMultiLevel_level1 10 (insert n2 u1)
      (upd st.headers n1 ⟨DirectoryFileSize, cD.length, 1, cD⟩)
      (by decide)
      (by rw [(by decide : ceilDiv 10 SectorSize = 1)]; omega)
  obtain ⟨ndF, freshF, huF, _, _, _, _, _⟩ := allocateMultiLevel_ok halloc2
  have hgs2 : getSector (upd (upd st.tables n1 emptyTable) DirectorySector T1)
      emptyTable DirectorySector ⟨['/', 'd', '/', 'f'], [['d'], ['f']]⟩ = none := by
    unfold getSector
    rw [if_neg (by decide),
      findByAbsolutePath_none _ emptyTable ['d'] [['f']] (findIndex_emptyTable ['d'])]
    rfl
  have hadd2 : dirAdd emptyTable ['f'] n2 false =
      some (emptyTable.set 0 ⟨true, false, n2, List.take FileNameMaxLen ['f']⟩) := by
    unfold dirAdd
    rw [findIndex_emptyTable]
    dsimp only
    rw [firstFree_emptyTable]
    rfl
  have hop2 : modelCreate
      (⟨u1, upd st.headers n1 ⟨DirectoryFileSize, cD.length, 1, cD⟩,
        upd (upd st.tables n1 emptyTable) DirectorySector T1⟩ : DiskState)
      ['/', 'd', '/', 'f'] 10 = .done (true,
        ⟨u2,
          upd (upd st.headers n1 ⟨DirectoryFileSize, cD.length, 1, cD⟩) n2
            ⟨10, cF.length, 1, cF⟩,
          upd (upd (upd st.tables n1 emptyTable) DirectorySector T1) n1
            (emptyTable.set 0 ⟨true, false, n2, List.take FileNameMaxLen ['f']⟩)⟩) := by
    rw [modelCreate_steps _ ['/', 'd', '/', 'f'] [['d'], ['f']] 10 hparse_df n1 hupper2]
    dsimp only
    rw [upd_ne (upd st.tables n1 emptyTable) T1 hn1_ne_dir, upd_same]
    simp only [Option.getD_some]
    rw [hgs2]
    dsimp only
    rw [hfas2]
    dsimp only
    rw [hlast_f, hadd2]
    dsimp only
    rw [halloc2]
  -- operation 3
  have hn1_in_u1 : n1 ∈ u1 := by
    rw [huD]; exact Finset.mem_union_left _ (Finset.mem_insert_self n1 st.used)
  have hn2_ne_n1 : ¬(n2 = n1) := fun he => hn2u (he ▸ hn1_in_u1)
  have hn1_ne_n2 : ¬(n1 = n2) := fun he => hn2_ne_n1 he.symm
  have hfind3 : findByAbsolutePath
      (upd (upd (upd st.tables n1 emptyTable) DirectorySector T1) n1
        (emptyTable.set 0 ⟨true, false, n2, List.take FileNameMaxLen ['f']⟩))
      T1 [['d']] = some (n1, true) := by
    rw [findByAbsolutePath_single, hj2]
    simp only [Option.map_some']
    rw [hent2]
  have hop3 : modelRemoveRecursively
      (⟨u2,
        upd (upd st.headers n1 ⟨DirectoryFileSize, cD.length, 1, cD⟩) n2
          ⟨10, cF.length, 1, cF⟩,
        upd (upd (upd st.tables n1 emptyTable) DirectorySector T1) n1
          (emptyTable.set 0 ⟨true, false, n2, List.take FileNameMaxLen ['f']⟩)⟩ :
        DiskState)
      ['/', 'd'] = .done (true,
        ⟨(List.foldl Finset.erase
            ((List.foldl Finset.erase u2 cF).erase n2) cD).erase n1,
          upd (upd st.headers n1 ⟨DirectoryFileSize, cD.length, 1, cD⟩) n2
            ⟨10, cF.length, 1, cF⟩,
          upd (upd (upd (upd st.tables n1 emptyTable) DirectorySector T1) n1
              (emptyTable.set 0 ⟨true, false, n2, List.take FileNameMaxLen ['f']⟩))
            DirectorySector ((dirRemove T1 (lastName [['d']])).getD T1)⟩) := by
    rw [modelRemoveRecursively_steps _ ['/', 'd'] [['d']] hparse_d]
    dsimp only
    rw [upd_ne _ _ hdir_ne_n1, upd_same]
    simp only [Option.getD_some]
    rw [hfind3]
    dsimp only
    rw [if_pos (rfl : (true : Bool) = true)]
    rw [getUpperLevelSector_one]
    dsimp only
    rw [upd_ne _ _ hdir_ne_n1, upd_same]
    simp only [Option.getD_some]
    rw [upd_same]
    simp only [Option.getD_some]
    rw [upd_ne _ _ hn1_ne_n2, upd_same]
    simp only [Option.getD_some]
    rw [(show (NumSectors : Nat) = 1023 + 1 from rfl),
      (show emptyTable.set 0
          (⟨true, false, n2, List.take FileNameMaxLen ['f']⟩ : DirectoryEntry) =
        (⟨true, false, n2, List.take FileNameMaxLen ['f']⟩ : DirectoryEntry) ::
          List.replicate 63 emptyEntry from rfl)]
    rw [removeAll_single_file 1023 _ _ n2 _ u2 ⟨10, cF.length, 1, cF⟩
      (upd_same _ _ _) rfl 63]
    unfold deallocateMultiLevel
    dsimp only
    rw [deallocSectors_level_one _ _ rfl]
  refine ⟨_, _, _, hop1, hop2, hop3, ?_⟩
  have hA : List.foldl Finset.erase u2 cF = insert n2 u1 := by
    rw [huF]
    exact foldl_erase_union cF (insert n2 u1) ndF (fun x hx => (freshF x hx).1)
  have hC : List.foldl Finset.erase u1 cD = insert n1 st.used := by
    rw [huD]
    exact foldl_erase_union cD (insert n1 st.used) ndD (fun x hx => (freshD x hx).1)
  show (List.foldl Finset.erase ((List.foldl Finset.erase u2 cF).erase n2) cD).erase n1
      = st.used
  rw [hA, Finset.erase_insert hn2u, hC, Finset.erase_insert hn1u]

/-- Witness for C5 on a freshly formatted disk: the three operations
run and the bitmap returns to the formatted state's used set. -/
theorem C5_witness :
    ∃ st1 st2 st3,
      modelCreateDirectory baseState ['/', 'd'] = .done st1 ∧
      modelCreate st1 ['/', 'd', '/', 'f'] 10 = .done (true, st2) ∧
      modelRemoveRecursively st2 ['/', 'd'] = .done (true, st3) ∧
      st3.used = baseState.used :=
  C5_create_remove_restores_bitmap baseState emptyTable rfl
    (findIndex_emptyTable ['d']) (by decide) (by decide) (by decide)
